import Mathlib

/-!
# The Maelstrom nodes of the repository

Shallow embeddings of `maelstrom-broadcast/main.go` (the four handlers
registered in `main`, the dissemination goroutine started by the broadcast
handler and the RPC completion callback), of the handlers of
`maelstrom-kafka/main.go`, of `SimpleTxnStore.PerformTxn` of
`maelstrom-txn/main.go` and of the `add` handler of
`maelstrom-counter/main.go`, followed by their properties. The broadcast node
comes first.

Conventions of the embedding.

* `json.Unmarshal(msg.Body, &body)` is library code: its outcome is an input of
  the handler, `Except String Body` (`.error e` when decoding fails).
* `uint64` message values are only stored and compared, so they are `Nat`.
* `n.Reply(msg, body)` is recorded as the reply the handler produces;
  `go func(...)` is recorded as the list of tasks the handler starts.
* A `nil` slice and an empty slice are both `[]`.
-/

namespace Broadcast

/-- Node identifiers (`string` in the source). -/
abbrev NodeId := String

/-- Body of a `broadcast` request (`BroadcastRequestBody`). -/
structure BroadcastRequestBody where
  type : String
  message : Nat
deriving DecidableEq, Repr

/-- Body of the reply to a `broadcast` request (`BroadcastResponseBody`). -/
structure BroadcastResponseBody where
  type : String
deriving DecidableEq, Repr

/-- Body of the reply to a `read` request (`ReadResponseBody`). -/
structure ReadResponseBody where
  type : String
  messages : List Nat
deriving DecidableEq, Repr

/-- Body of a `topology` request (`TopologyRequestBody`); the Go map is an
association list read with `List.lookup`. -/
structure TopologyRequestBody where
  type : String
  topology : List (NodeId × List NodeId)
deriving DecidableEq, Repr

/-- Body of the reply to a `topology` request (`TopologyResponseBody`). -/
structure TopologyResponseBody where
  type : String
deriving DecidableEq, Repr

/-- Body of a reply to a peer-to-peer deliver request
(`BroadcastOkResponseBody`). -/
structure BroadcastOkResponseBody where
  inReplyTo : Int
  type : String
deriving DecidableEq, Repr

/-- What a handler passes to `n.Reply`. -/
inductive Response where
  | broadcast (body : BroadcastResponseBody)
  | read (body : ReadResponseBody)
  | topology (body : TopologyResponseBody)
deriving DecidableEq, Repr

/-- The variables of `main` shared by the handlers, with the node's id
(`n.ID()`). -/
structure State where
  id : NodeId
  messages : List Nat
  destinations : List NodeId
deriving DecidableEq, Repr

/-- The variables of one dissemination goroutine (lines 84-120): its two
parameters and the list of neighbours whose acknowledgment was recorded. -/
structure Task where
  destinations : List NodeId
  body : BroadcastRequestBody
  successfulSentDestinations : List NodeId
deriving DecidableEq, Repr

/-- Result of running one handler: the shared variables afterwards, what the
handler returned (`.error` for a returned error, `.ok r` with the reply sent,
`none` when it replies nothing) and the goroutines it started. -/
structure Outcome where
  state : State
  result : Except String (Option Response)
  started : List Task

/-- Handler of `broadcast_ok` (lines 59-61): returns `nil`. -/
def handleBroadcastOk (st : State) : Outcome :=
  { state := st, result := .ok none, started := [] }

/-- Handler of `broadcast` (lines 64-125), run without interference from
another handler. -/
def handleBroadcast (st : State) (decoded : Except String BroadcastRequestBody) : Outcome :=
  match decoded with
  | .error e => { state := st, result := .error e, started := [] }
  | .ok body =>
    if st.messages.contains body.message then
      { state := st
        result := .ok (some (.broadcast { type := "broadcast_ok" }))
        started := [] }
    else
      { state := { st with messages := st.messages ++ [body.message] }
        result := .ok (some (.broadcast { type := "broadcast_ok" }))
        started := [{ destinations := st.destinations, body := body,
                      successfulSentDestinations := [] }] }

/-- Handler of `read` (lines 128-139); the body is decoded into a map that is
not used. -/
def handleRead (st : State) (decoded : Except String Unit) : Outcome :=
  match decoded with
  | .error e => { state := st, result := .error e, started := [] }
  | .ok _ =>
    { state := st
      result := .ok (some (.read { type := "read_ok", messages := st.messages }))
      started := [] }

/-- Handler of `topology` (lines 142-154): `body.Topology[n.ID()]` is the zero
value, an empty slice, when the key is absent. -/
def handleTopology (st : State) (decoded : Except String TopologyRequestBody) : Outcome :=
  match decoded with
  | .error e => { state := st, result := .error e, started := [] }
  | .ok body =>
    { state := { st with destinations := (body.topology.lookup st.id).getD [] }
      result := .ok (some (.topology { type := "topology_ok" }))
      started := [] }

/-- An inbound message of one of the four registered kinds, with the outcome
of decoding its body in the handler. -/
inductive Request where
  | broadcastOk
  | broadcast (decoded : Except String BroadcastRequestBody)
  | read (decoded : Except String Unit)
  | topology (decoded : Except String TopologyRequestBody)

/-- Dispatch on the message type (`n.Handle` registrations of `main`). -/
def handle (st : State) : Request → Outcome
  | .broadcastOk => handleBroadcastOk st
  | .broadcast d => handleBroadcast st d
  | .read d => handleRead st d
  | .topology d => handleTopology st d

/-- State after `n` broadcast requests carrying `body`, handled one after
another. -/
def broadcastTimes (body : BroadcastRequestBody) : Nat → State → State
  | 0, st => st
  | n + 1, st => broadcastTimes body n (handleBroadcast st (.ok body)).state

/-- The `messages` field of the reply to a well-formed `read` request. -/
def readMessages (st : State) : List Nat :=
  match (handleRead st (.ok ())).result with
  | .ok (some (.read body)) => body.messages
  | _ => []

/-! ## Dissemination goroutine (lines 84-120) -/

/-- Scoping of the range variable `node` of line 90, which the completion
callback closes over. It is fixed by the `go` directive of the module's
`go.mod`, not by `main.go`: from Go 1.22 every iteration declares its own
`node`; before, one `node` is shared by all iterations of a `for` statement. -/
inductive LoopVarScope where
  | perIteration
  | perLoop
deriving DecidableEq, Repr

/-- Task created by `go func(destinations, body)` for given arguments. -/
def newTask (destinations : List NodeId) (body : BroadcastRequestBody) : Task :=
  { destinations := destinations, body := body, successfulSentDestinations := [] }

/-- Loop condition of line 88. -/
def loopCondition (t : Task) : Bool :=
  t.destinations.length != t.successfulSentDestinations.length

/-- The RPC requests issued by one execution of the inner loop (lines 90-116):
destination and body, in order. -/
def round (t : Task) : List (NodeId × BroadcastRequestBody) :=
  t.destinations.map fun node => (node, t.body)

/-- Completion callback of an RPC (lines 92-115). `node` is the value that the
captured variable `node` holds when the callback runs; the result is the
returned error (or `nil`) and `successfulSentDestinations` afterwards. -/
def rpcCallback (node : NodeId) (decoded : Except String BroadcastOkResponseBody)
    (successfulSentDestinations : List NodeId) : Except String Unit × List NodeId :=
  match decoded with
  | .error e => (.error e, successfulSentDestinations)
  | .ok broadcastOkBody =>
    if broadcastOkBody.type != "broadcast_ok" then
      (.error ("expeted type broadcast_ok, got " ++ broadcastOkBody.type),
        successfulSentDestinations)
    else if !successfulSentDestinations.contains node then
      (.ok (), successfulSentDestinations ++ [node])
    else
      (.ok (), successfulSentDestinations)

/-- A dissemination goroutine in execution: its variables, the destinations of
the RPCs whose single-shot callback is registered and has not fired, the log
of all RPC requests issued, and whether the outer loop has exited. -/
structure Running where
  task : Task
  outstanding : List NodeId
  sent : List (NodeId × BroadcastRequestBody)
  finished : Bool
deriving DecidableEq, Repr

/-- What happens to a running task: the goroutine evaluates the loop condition
(at its start and after each `time.Sleep`), or the reply to an RPC sent to
`sentTo` arrives and its callback runs. -/
inductive Event where
  | wake
  | reply (sentTo : NodeId) (decoded : Except String BroadcastOkResponseBody)

/-- Value of the captured `node` seen by the callback of the RPC sent to
`sentTo`, when replies are processed between rounds: the iteration's own
variable, or the shared one, which the finished inner loop left at the last
destination. -/
def closureNode (scope : LoopVarScope) (t : Task) (sentTo : NodeId) : NodeId :=
  match scope with
  | .perIteration => sentTo
  | .perLoop => t.destinations.getLast?.getD sentTo

/-- A goroutine that has just been started. -/
def start (t : Task) : Running :=
  { task := t, outstanding := [], sent := [], finished := false }

/-- One event of a running task. A round (loop condition true) issues the RPCs
of `round` and registers their callbacks; a reply fires the callback registered
for it, if there is one, under the mutex of lines 107-108. -/
def step (scope : LoopVarScope) (r : Running) : Event → Running
  | .wake =>
    if r.finished then r
    else if loopCondition r.task then
      { r with outstanding := r.outstanding ++ r.task.destinations
               sent := r.sent ++ round r.task }
    else { r with finished := true }
  | .reply sentTo decoded =>
    if sentTo ∈ r.outstanding then
      { r with
        outstanding := r.outstanding.erase sentTo
        task := { r.task with
          successfulSentDestinations :=
            (rpcCallback (closureNode scope r.task sentTo) decoded
              r.task.successfulSentDestinations).2 } }
    else r

/-- A sequence of events of one task. -/
def run (scope : LoopVarScope) (r : Running) (events : List Event) : Running :=
  events.foldl (step scope) r

/-- A reply that is a well-formed acknowledgment. -/
def Event.isAckFrom (x : NodeId) : Event → Bool
  | .reply sentTo (.ok b) => sentTo == x && b.type == "broadcast_ok"
  | _ => false

/-! ## The node with its goroutines -/

/-- The shared variables together with the dissemination goroutines started so
far. -/
structure System where
  node : State
  tasks : List Running

/-- What happens at the node: a request is handled, or task number `i` makes a
step. -/
inductive SystemEvent where
  | request (req : Request)
  | task (i : Nat) (e : Event)

/-- One event of the node. -/
def System.step (scope : LoopVarScope) (s : System) : SystemEvent → System
  | .request req =>
    let o := handle s.node req
    { node := o.state, tasks := s.tasks ++ o.started.map start }
  | .task i e =>
    { s with tasks := s.tasks.modify (fun r => Broadcast.step scope r e) i }

/-- A sequence of events of the node. -/
def System.run (scope : LoopVarScope) (s : System) (events : List SystemEvent) : System :=
  events.foldl (System.step scope) s

/-! ## Two broadcast handlers running concurrently

The transport runs every handler in its own goroutine. The statements of the
broadcast handler that touch shared variables are the membership test of
line 72 (outside the mutex), the append of lines 79-81 (inside it) and the read
of `destinations` at line 120. -/

/-- Program counter of a broadcast handler whose body decoded. -/
inductive Pc where
  | check
  | insert
  | spawn
  | reply
  | done
deriving DecidableEq, Repr

/-- One broadcast handler in execution, with its verdict on the value once
line 72 has been executed. -/
structure HandlerRun where
  body : BroadcastRequestBody
  pc : Pc
  judgedNew : Option Bool
deriving DecidableEq, Repr

/-- Two broadcast handlers over the shared variables, the goroutines started
and the replies sent so far. -/
structure Conc where
  state : State
  tasks : List Task
  replies : List Response
  first : HandlerRun
  second : HandlerRun
deriving DecidableEq, Repr

/-- The next statement of one handler, on the shared variables. -/
def stepHandler (st : State) (tasks : List Task) (replies : List Response) (h : HandlerRun) :
    State × List Task × List Response × HandlerRun :=
  match h.pc with
  | .check =>
    if st.messages.contains h.body.message then
      (st, tasks, replies ++ [.broadcast { type := "broadcast_ok" }],
        { h with pc := .done, judgedNew := some false })
    else (st, tasks, replies, { h with pc := .insert, judgedNew := some true })
  | .insert =>
    ({ st with messages := st.messages ++ [h.body.message] }, tasks, replies,
      { h with pc := .spawn })
  | .spawn => (st, tasks ++ [newTask st.destinations h.body], replies, { h with pc := .reply })
  | .reply =>
    (st, tasks, replies ++ [.broadcast { type := "broadcast_ok" }], { h with pc := .done })
  | .done => (st, tasks, replies, h)

/-- The scheduler lets the first (`false`) or the second (`true`) handler
execute its next statement. -/
def Conc.step (c : Conc) (who : Bool) : Conc :=
  if who then
    let (st, tasks, replies, h) := stepHandler c.state c.tasks c.replies c.second
    { c with state := st, tasks := tasks, replies := replies, second := h }
  else
    let (st, tasks, replies, h) := stepHandler c.state c.tasks c.replies c.first
    { c with state := st, tasks := tasks, replies := replies, first := h }

/-- An interleaving of the two handlers. -/
def Conc.run (c : Conc) (schedule : List Bool) : Conc :=
  schedule.foldl Conc.step c

/-- Two broadcast requests arrive at a node in state `st`. -/
def Conc.init (st : State) (b1 b2 : BroadcastRequestBody) : Conc :=
  { state := st, tasks := [], replies := []
    first := { body := b1, pc := .check, judgedNew := none }
    second := { body := b2, pc := .check, judgedNew := none } }

/-- A reply that the callback does not accept: its body does not decode, or its
type is not `broadcast_ok`. -/
def notAck : Except String BroadcastOkResponseBody → Prop
  | .error _ => True
  | .ok b => b.type ≠ "broadcast_ok"

/-- Invariant of a running task whose snapshot is `dests`: the snapshot is
kept, the acknowledged list has no duplicates, and acknowledged neighbours and
registered callbacks belong to the snapshot. -/
structure Inv (dests : List NodeId) (r : Running) : Prop where
  dests_eq : r.task.destinations = dests
  nodup : r.task.successfulSentDestinations.Nodup
  acked_sub : ∀ x ∈ r.task.successfulSentDestinations, x ∈ dests
  out_sub : ∀ x ∈ r.outstanding, x ∈ dests

/-- Every recorded acknowledgment comes from a well-formed `broadcast_ok`
reply of that neighbour among `events`. -/
def Justified (events : List Event) (r : Running) : Prop :=
  ∀ x ∈ r.task.successfulSentDestinations, ∃ e ∈ events, Event.isAckFrom x e = true

end Broadcast

/-! # Go values shared by the other programs

Go maps are association lists: `mapGet` returns the binding nearest to the
head, `mapSet` removes the bindings of the key and puts the new one at the
head, and a `range` over the map visits the keys of `mapKeys`, each once, with
its `mapGet` value. Every list stands for a map. -/

namespace Go

/-- Map read `v, ok := m[k]`. -/
def mapGet {κ ν : Type} [DecidableEq κ] : List (κ × ν) → κ → Option ν
  | [], _ => none
  | (k1, v) :: rest, k => if k1 = k then some v else mapGet rest k

/-- The map without the bindings of `k`. -/
def mapDelete {κ ν : Type} [DecidableEq κ] : List (κ × ν) → κ → List (κ × ν)
  | [], _ => []
  | (k1, v) :: rest, k => if k1 = k then mapDelete rest k else (k1, v) :: mapDelete rest k

/-- Map write `m[k] = v`: the binding of `k`, if any, is replaced. -/
def mapSet {κ ν : Type} [DecidableEq κ] (m : List (κ × ν)) (k : κ) (v : ν) : List (κ × ν) :=
  (k, v) :: mapDelete m k

/-- The keys a `range` over the map visits. -/
def mapKeys {κ ν : Type} [DecidableEq κ] (m : List (κ × ν)) : List κ :=
  (m.map Prod.fst).dedup

/-- A JSON text, already parsed; a number is given by the value of its literal,
which stands for the `float64` it is rounded to (the programs only store and
compare numbers and test their dynamic type). -/
inductive Json where
  | null
  | bool (b : Bool)
  | number (x : Rat)
  | string (s : String)
  | array (xs : List Json)
  | object (fields : List (String × Json))

/-- A value of type `any` (`interface{}`), by its dynamic type. -/
inductive Any where
  | nil
  | bool (b : Bool)
  | float64 (x : Rat)
  | int (i : Int)
  | string (s : String)
  | slice (xs : List Any)
  | map (fields : List (String × Any))

mutual
/-- What `json.Unmarshal` stores into an `any`: `float64` for numbers,
`[]any` for arrays, `map[string]any` for objects. -/
def unmarshalAny : Json → Any
  | .null => .nil
  | .bool b => .bool b
  | .number x => .float64 x
  | .string s => .string s
  | .array xs => .slice (unmarshalList xs)
  | .object fields => .map (unmarshalFields fields)
/-- The elements of an array, unmarshalled. -/
def unmarshalList : List Json → List Any
  | [] => []
  | x :: xs => unmarshalAny x :: unmarshalList xs
/-- The members of an object, unmarshalled into a map; of two members with the
same name the later one is kept. -/
def unmarshalFields : List (String × Json) → List (String × Any)
  | [] => []
  | (k, v) :: rest =>
    if (mapGet (unmarshalFields rest) k).isSome then unmarshalFields rest
    else (k, unmarshalAny v) :: unmarshalFields rest
end

/-- Bound of the number literals that `strconv.ParseFloat` accepts: a literal
whose magnitude reaches `2^1024 - 2^970` rounds out of the range of
`float64`. -/
def float64Limit : Rat := 2 ^ 1024 - 2 ^ 970

mutual
/-- Every number literal of the text is within the range of `float64`. -/
def Json.inRange : Json → Bool
  | .null => true
  | .bool _ => true
  | .number x => decide (|x| < float64Limit)
  | .string _ => true
  | .array xs => inRangeList xs
  | .object fields => inRangeFields fields
/-- Every number literal of the elements is within range. -/
def inRangeList : List Json → Bool
  | [] => true
  | x :: xs => x.inRange && inRangeList xs
/-- Every number literal of the members is within range. -/
def inRangeFields : List (String × Json) → Bool
  | [] => true
  | (_, v) :: rest => v.inRange && inRangeFields rest
end

/-- Result of `json.Unmarshal(data, &m)` for `m` of type `map[string]any`: an
error unless the text is an object (`null` leaves `m` nil) whose number
literals are all within the range of `float64`. -/
def unmarshalMap : Json → Except String (List (String × Any))
  | .object fields =>
    if inRangeFields fields then .ok (unmarshalFields fields)
    else .error "json: cannot unmarshal number into Go value of type float64"
  | .null => .ok []
  | _ => .error "json: cannot unmarshal into Go value of type map[string]interface {}"

/-- Increment of a Go `int` (64 bits, two's complement). -/
def incr (x : Int) : Int :=
  (x + 1 + 9223372036854775808) % 18446744073709551616 - 9223372036854775808

end Go

/-! # Log node of `maelstrom-kafka/main.go` -/

namespace Kafka

open Go

/-- Body of a `send` request (`SendBody`). -/
structure SendBody where
  type : String
  key : String
  msg : Int
deriving DecidableEq, Repr

/-- Body of the reply to `send` (`SendOkBody`). -/
structure SendOkBody where
  type : String
  offset : Int
deriving DecidableEq, Repr

/-- Body of a `poll` request (`PollBody`). -/
structure PollBody where
  type : String
  offsets : List (String × Int)
deriving DecidableEq, Repr

/-- Body of the reply to `poll` (`PollOkBody`). -/
structure PollOkBody where
  type : String
  msgs : List (String × List (List Int))
deriving DecidableEq, Repr

/-- Body of a `commit_offsets` request (`CommitOffsetsBody`). -/
structure CommitOffsetsBody where
  type : String
  offsets : List (String × Int)
deriving DecidableEq, Repr

/-- Body of the reply to `commit_offsets` (`CommitOffsetsOkBody`). -/
structure CommitOffsetsOkBody where
  type : String
deriving DecidableEq, Repr

/-- Body of a `list_committed_offsets` request (`ListCommittedOffsetsBody`). -/
structure ListCommittedOffsetsBody where
  type : String
  keys : List String
deriving DecidableEq, Repr

/-- Body of the reply to `list_committed_offsets`
(`ListCommittedOffsetsOkBody`). -/
structure ListCommittedOffsetsOkBody where
  type : String
  offsets : List (String × Int)
deriving DecidableEq, Repr

/-- The struct `logs` of `main`, without its mutex. -/
structure Logs where
  offsets : List (String × Int)
  msgs : List (String × List (Int × Int))
deriving DecidableEq, Repr

/-- The two logs of `main`. Every handler holds the mutexes of the logs it
touches from its first access to its return, so handlers are atomic. -/
structure State where
  committed : Logs
  uncommitted : Logs
deriving DecidableEq, Repr

/-- The logs after the `make` calls of lines 64-68. -/
def State.empty : State :=
  { committed := { offsets := [], msgs := [] }, uncommitted := { offsets := [], msgs := [] } }

/-- Result of the `send` handler: the logs afterwards, the reply passed to
`n.Reply` (if the handler got that far) and the returned error. -/
structure SendOutcome where
  state : State
  reply : Option SendOkBody
  result : Except String Unit

/-- Handler of `send` (lines 73-112). `replyErr` is the error returned by
`n.Reply`, `none` for `nil`. -/
def handleSend (st : State) (decoded : Except String SendBody) (replyErr : Option String) :
    SendOutcome :=
  match decoded with
  | .error e => { state := st, reply := none, result := .error e }
  | .ok body =>
    let msgs1 :=
      if (mapGet st.uncommitted.msgs body.key).isNone then mapSet st.uncommitted.msgs body.key []
      else st.uncommitted.msgs
    let offsets1 :=
      if (mapGet st.uncommitted.offsets body.key).isNone then
        mapSet st.uncommitted.offsets body.key 0
      else st.uncommitted.offsets
    let offset := (mapGet offsets1 body.key).getD 0
    let msgs2 := mapSet msgs1 body.key (mapSet ((mapGet msgs1 body.key).getD []) offset body.msg)
    match replyErr with
    | some e =>
      { state := { st with uncommitted := { offsets := offsets1, msgs := msgs2 } }
        reply := some { type := "send_ok", offset := offset }
        result := .error e }
    | none =>
      { state := { st with
          uncommitted := { offsets := mapSet offsets1 body.key (incr offset), msgs := msgs2 } }
        reply := some { type := "send_ok", offset := offset }
        result := .ok () }

/-- The offsets of `keyMsgs` that are at least `requestedOffset`, sorted
(lines 135-142). -/
def pollOffsets (keyMsgs : List (Int × Int)) (requestedOffset : Int) : List Int :=
  ((mapKeys keyMsgs).filter fun offset => decide (offset ≥ requestedOffset)).insertionSort
    (· ≤ ·)

/-- The loop of lines 145-149 for one key, on the reply map `msgs`. -/
def pollAppend (keyMsgs : List (Int × Int)) (key : String) (offsets : List Int)
    (msgs : List (String × List (List Int))) : List (String × List (List Int)) :=
  offsets.foldl
    (fun msgs offset =>
      match mapGet keyMsgs offset with
      | some msg => mapSet msgs key ((mapGet msgs key).getD [] ++ [[offset, msg]])
      | none => msgs)
    msgs

/-- Body of the loop of lines 128-150 for one requested key. -/
def pollKey (uncommitted : Logs) (offsets : List (String × Int))
    (msgs : List (String × List (List Int))) (key : String) : List (String × List (List Int)) :=
  let requestedOffset := (mapGet offsets key).getD 0
  match mapGet uncommitted.msgs key with
  | none => msgs
  | some keyMsgs => pollAppend keyMsgs key (pollOffsets keyMsgs requestedOffset) msgs

/-- Handler of `poll` (lines 115-156): the logs afterwards and the reply or the
returned error. -/
def handlePoll (st : State) (decoded : Except String PollBody) :
    State × Except String PollOkBody :=
  match decoded with
  | .error e => (st, .error e)
  | .ok body =>
    (st, .ok { type := "poll_ok"
               msgs := (mapKeys body.offsets).foldl (pollKey st.uncommitted body.offsets) [] })

/-- Body of the loop of lines 178-189 for one offset of the key's uncommitted
messages. -/
def commitOffset (uncommittedKeyMsgs : List (Int × Int)) (key : String) (requestedOffset : Int)
    (committed : Logs) (offset : Int) : Logs :=
  let uncommittedMsg := (mapGet uncommittedKeyMsgs offset).getD 0
  if offset > requestedOffset then committed
  else
    let msgs1 :=
      if (mapGet committed.msgs key).isNone then mapSet committed.msgs key [] else committed.msgs
    { committed with
      msgs := mapSet msgs1 key (mapSet ((mapGet msgs1 key).getD []) offset uncommittedMsg) }

/-- Body of the loop of lines 172-191 for one requested key. -/
def commitKey (uncommitted : Logs) (offsets : List (String × Int)) (committed : Logs)
    (key : String) : Logs :=
  let requestedOffset := (mapGet offsets key).getD 0
  match mapGet uncommitted.msgs key with
  | none => committed
  | some uncommittedKeyMsgs =>
    let committed1 :=
      (mapKeys uncommittedKeyMsgs).foldl (commitOffset uncommittedKeyMsgs key requestedOffset)
        committed
    { committed1 with offsets := mapSet committed1.offsets key requestedOffset }

/-- Handler of `commit_offsets` (lines 159-196). -/
def handleCommitOffsets (st : State) (decoded : Except String CommitOffsetsBody) :
    State × Except String CommitOffsetsOkBody :=
  match decoded with
  | .error e => (st, .error e)
  | .ok body =>
    ({ st with
        committed := (mapKeys body.offsets).foldl (commitKey st.uncommitted body.offsets)
          st.committed },
      .ok { type := "commit_offsets_ok" })

/-- Handler of `list_committed_offsets` (lines 199-221). -/
def handleListCommittedOffsets (st : State) (decoded : Except String ListCommittedOffsetsBody) :
    State × Except String ListCommittedOffsetsOkBody :=
  match decoded with
  | .error e => (st, .error e)
  | .ok body =>
    (st, .ok { type := "list_committed_offsets_ok"
               offsets := body.keys.foldl
                 (fun offsets key =>
                   match mapGet st.committed.offsets key with
                   | some offset => mapSet offsets key offset
                   | none => offsets)
                 [] })

/-- A sequence of `send` requests that decode and whose replies are sent
without error: the logs afterwards and, in order, every request with the
offset of its `send_ok`. -/
def sendAll (st : State) (sends : List SendBody) : State × List (SendBody × Int) :=
  sends.foldl
    (fun acc body =>
      let o := handleSend acc.1 (.ok body) none
      (o.state, acc.2 ++ [(body, (o.reply.map (·.offset)).getD 0)]))
    (st, [])

/-- The list the reply holds for a requested key: the pairs of its log from
the requested offset on, in the order of `pollOffsets`. -/
def pollResult (uncommitted : Logs) (offsets : List (String × Int)) (key : String) :
    List (List Int) :=
  match mapGet uncommitted.msgs key with
  | none => []
  | some keyMsgs =>
    (pollOffsets keyMsgs ((mapGet offsets key).getD 0)).map fun o =>
      [o, (mapGet keyMsgs o).getD 0]

/-- Number of requests for `key` among `sends`. -/
def sendsTo (key : String) (sends : List SendBody) : Nat :=
  (sends.filter fun body => decide (body.key = key)).length

/-- The message stored under `offset` in the log of `key`. -/
def Logs.msgAt (l : Logs) (key : String) (offset : Int) : Option Int :=
  (mapGet l.msgs key).bind fun keyMsgs => mapGet keyMsgs offset

end Kafka

/-! # Transaction store of `maelstrom-txn/main.go` -/

namespace Txn

open Go

/-- The map of `SimpleTxnStore`; `PerformTxn` holds the mutex from its first
statement to its return. A `float64` is the rational number it denotes. -/
abbrev Store := List (Rat × Rat)

/-- Body of the loop of lines 55-71 for one element of `txn`: the store
afterwards and the slice appended to `res`; `none` when a type assertion or an
index panics. -/
def performOp (store : Store) (opr : Any) : Option (Store × List Any) :=
  match opr with
  | .slice op =>
    match (op[0]? : Option Any) with
    | some (.string t) =>
      if t = "r" then
        match (op[1]? : Option Any) with
        | some (.float64 key) =>
          some (store, [.string t, .float64 key, .float64 ((mapGet store key).getD 0)])
        | _ => none
      else
        match (op[1]? : Option Any) with
        | some (.float64 key) =>
          match (op[2]? : Option Any) with
          | some (.float64 val) =>
            some (mapSet store key val, [.string t, .float64 key, .float64 val])
          | _ => none
        | _ => none
    | _ => none
  | _ => none

/-- The loop of lines 55-71 on the rest of `txn`, with `res` so far. -/
def performLoop : Store → List (List Any) → List Any → Option (Store × List (List Any))
  | store, res, [] => some (store, res)
  | store, res, opr :: rest =>
    match performOp store opr with
    | none => none
    | some (store1, r) => performLoop store1 (res ++ [r]) rest

/-- `SimpleTxnStore.PerformTxn` (lines 49-73): the store afterwards and the
returned `res`; `none` when it panics. -/
def PerformTxn (store : Store) (txn : List Any) : Option (Store × List (List Any)) :=
  performLoop store [] txn

/-- A well-formed operation: a read of a key, which may carry further elements
(such as the `null` of `["r", k, null]`), or a write of a value to a key. -/
inductive Op where
  | read (key : Rat) (tail : List Any)
  | write (key val : Rat)

/-- The element of `txn` that a well-formed operation is decoded to. -/
def Op.encode : Op → Any
  | .read key tail => .slice (.string "r" :: .float64 key :: tail)
  | .write key val => .slice [.string "w", .float64 key, .float64 val]

/-- The value of the last write to `key` among `ops`, if there is one. -/
def lastWrite : List Op → Rat → Option Rat
  | [], _ => none
  | op :: rest, key =>
    match lastWrite rest key with
    | some v => some v
    | none =>
      match op with
      | .write k v => if k = key then some v else none
      | .read _ _ => none

/-- The value held for `key` once the operations `earlier` of the transaction
have run on `store`: the last value written by them, else the value of the
store, which reads as 0 for a key it does not hold. -/
def heldValue (store : Store) (earlier : List Op) (key : Rat) : Rat :=
  match lastWrite earlier key with
  | some v => v
  | none => (mapGet store key).getD 0

/-- The entry of the result for operation `op` that runs after `earlier`. -/
def expectedEntry (store : Store) (earlier : List Op) : Op → List Any
  | .read key _ => [.string "r", .float64 key, .float64 (heldValue store earlier key)]
  | .write key val => [.string "w", .float64 key, .float64 val]

end Txn

/-! # Counter node of `maelstrom-counter/main.go`: the `add` handler -/

namespace Counter

open Go

/-- How a run of the `add` handler ends: it returns the decoding error, it
panics, or it puts `sent` on the channel `ch` and replies with `reply`. -/
inductive AddOutcome where
  | error (e : String)
  | panic
  | ok (sent : Int) (reply : List (String × Any))

/-- Handler of `add` (lines 48-59) for a message whose body is the JSON text
`body`. The type assertion `reqBody["delta"].(int)` panics unless the dynamic
type of the map entry is `int`. -/
def handleAdd (body : Json) : AddOutcome :=
  match unmarshalMap body with
  | .error e => .error e
  | .ok reqBody =>
    match mapGet reqBody "delta" with
    | some (.int delta) => .ok delta [("type", .string "add_ok")]
    | _ => .panic

end Counter

namespace Broadcast

/-! ## Dedup store and request handlers -/

theorem handleBroadcast_known (st : State) (body : BroadcastRequestBody)
    (h : body.message ∈ st.messages) :
    handleBroadcast st (.ok body) =
      { state := st, result := .ok (some (.broadcast { type := "broadcast_ok" })),
        started := [] } := by
  simp [handleBroadcast, h]

theorem handleBroadcast_fresh (st : State) (body : BroadcastRequestBody)
    (h : body.message ∉ st.messages) :
    handleBroadcast st (.ok body) =
      { state := { st with messages := st.messages ++ [body.message] },
        result := .ok (some (.broadcast { type := "broadcast_ok" })),
        started := [newTask st.destinations body] } := by
  simp [handleBroadcast, h, newTask]

theorem mem_after_handleBroadcast (st : State) (body : BroadcastRequestBody) :
    body.message ∈ (handleBroadcast st (.ok body)).state.messages := by
  by_cases h : body.message ∈ st.messages
  · rw [handleBroadcast_known st body h]; exact h
  · rw [handleBroadcast_fresh st body h]; simp

theorem count_after_handleBroadcast (st : State) (body : BroadcastRequestBody)
    (h : st.messages.Nodup) :
    (handleBroadcast st (.ok body)).state.messages.count body.message = 1 := by
  by_cases hm : body.message ∈ st.messages
  · rw [handleBroadcast_known st body hm]
    exact List.count_eq_one_of_mem h hm
  · rw [handleBroadcast_fresh st body hm]
    simp [List.count_append, List.count_eq_zero_of_not_mem hm]

theorem broadcastTimes_of_mem (body : BroadcastRequestBody) (n : Nat) (st : State)
    (h : body.message ∈ st.messages) : broadcastTimes body n st = st := by
  induction n with
  | zero => rfl
  | succ n ih => rw [broadcastTimes, handleBroadcast_known st body h]; exact ih

theorem broadcastTimes_succ (body : BroadcastRequestBody) (n : Nat) (st : State) :
    broadcastTimes body (n + 1) st = (handleBroadcast st (.ok body)).state := by
  rw [broadcastTimes]
  exact broadcastTimes_of_mem body n _ (mem_after_handleBroadcast st body)

/-- C1: on a node whose message list has no duplicates, a broadcast of `v`
starts a task (treats `v` as new) iff `v` is not yet in the list, a second
broadcast of `v` starts none and changes nothing, and after `n >= 1` broadcasts
of `v` the messages of a read contain `v` exactly once. -/
theorem broadcast_dedup_idempotent (st : State) (body : BroadcastRequestBody)
    (h : st.messages.Nodup) :
    ((handleBroadcast st (.ok body)).started = [newTask st.destinations body] ↔
        body.message ∉ st.messages) ∧
      ((handleBroadcast st (.ok body)).started = [] ↔ body.message ∈ st.messages) ∧
      (handleBroadcast (handleBroadcast st (.ok body)).state (.ok body)).started = [] ∧
      (handleBroadcast (handleBroadcast st (.ok body)).state (.ok body)).state =
        (handleBroadcast st (.ok body)).state ∧
      ∀ n, 1 ≤ n → (readMessages (broadcastTimes body n st)).count body.message = 1 := by
  refine ⟨?_, ?_, ?_, ?_, ?_⟩
  · by_cases hm : body.message ∈ st.messages
    · simp [handleBroadcast_known st body hm, hm]
    · simp [handleBroadcast_fresh st body hm, hm]
  · by_cases hm : body.message ∈ st.messages
    · simp [handleBroadcast_known st body hm, hm]
    · simp [handleBroadcast_fresh st body hm, hm]
  · rw [handleBroadcast_known _ body (mem_after_handleBroadcast st body)]
  · rw [handleBroadcast_known _ body (mem_after_handleBroadcast st body)]
  · intro n hn
    obtain ⟨k, rfl⟩ : ∃ k, n = k + 1 := ⟨n - 1, by omega⟩
    rw [broadcastTimes_succ]
    exact count_after_handleBroadcast st body h

theorem broadcast_dedup_idempotent_witness :
    [1, 2].Nodup ∧
      (readMessages (broadcastTimes { type := "broadcast", message := 5 } 3
        { id := "n0", messages := [1, 2], destinations := ["n1"] })).count 5 = 1 :=
  ⟨by decide,
    (broadcast_dedup_idempotent { id := "n0", messages := [1, 2], destinations := ["n1"] }
      { type := "broadcast", message := 5 } (by decide)).2.2.2.2 3 (by decide)⟩

/-- C3: a well-formed broadcast request is answered with `broadcast_ok`
whether or not the value is known, and exactly one dissemination task (on the
current neighbour list, for this request body) is started when the value is
not in the store, none when it is. -/
theorem broadcast_reply_and_task (st : State) (body : BroadcastRequestBody) :
    (handleBroadcast st (.ok body)).result =
        .ok (some (.broadcast { type := "broadcast_ok" })) ∧
      (body.message ∉ st.messages →
        (handleBroadcast st (.ok body)).started = [newTask st.destinations body]) ∧
      (body.message ∈ st.messages → (handleBroadcast st (.ok body)).started = []) ∧
      ((handleBroadcast st (.ok body)).started ≠ [] ↔ body.message ∉ st.messages) ∧
      (handleBroadcast st (.ok body)).started.length ≤ 1 := by
  by_cases hm : body.message ∈ st.messages
  · simp [handleBroadcast_known st body hm, hm]
  · simp [handleBroadcast_fresh st body hm, hm]

/-- C4: whatever request is handled, every value of the message list is still
in the list afterwards (the old list is a prefix of the new one), and a
request other than a broadcast leaves the list as it is. -/
theorem messages_append_only (st : State) (req : Request) :
    (∀ v, v ∈ st.messages → v ∈ (handle st req).state.messages) ∧
      st.messages <+: (handle st req).state.messages ∧
      ((∀ d, req ≠ .broadcast d) → (handle st req).state.messages = st.messages) := by
  cases req with
  | broadcastOk => simp [handle, handleBroadcastOk]
  | broadcast d =>
    cases d with
    | error e => simp [handle, handleBroadcast]
    | ok body =>
      by_cases hm : body.message ∈ st.messages
      · simp [handle, handleBroadcast_known st body hm]
      · simp only [handle, handleBroadcast_fresh st body hm]
        refine ⟨fun v hv => by simp [hv], by simp, fun hne => absurd rfl (hne _)⟩
  | read d => cases d <;> simp [handle, handleRead]
  | topology d => cases d <;> simp [handle, handleTopology]

/-- C8: a well-formed topology request with mapping `m` sets the neighbour
list to the entry of `m` for the node's own id (empty without one), leaves the
id and the message list alone, starts nothing and is answered `topology_ok`;
two mappings with the same entry for this node give the same outcome. -/
theorem topology_handler_spec (st : State) (body : TopologyRequestBody) :
    (handleTopology st (.ok body)).state.destinations =
        (body.topology.lookup st.id).getD [] ∧
      (body.topology.lookup st.id = none →
        (handleTopology st (.ok body)).state.destinations = []) ∧
      (handleTopology st (.ok body)).state.messages = st.messages ∧
      (handleTopology st (.ok body)).state.id = st.id ∧
      (handleTopology st (.ok body)).started = [] ∧
      (handleTopology st (.ok body)).result =
        .ok (some (.topology { type := "topology_ok" })) ∧
      ∀ other : TopologyRequestBody, other.topology.lookup st.id = body.topology.lookup st.id →
        (handleTopology st (.ok other)).state = (handleTopology st (.ok body)).state ∧
        (handleTopology st (.ok other)).result = (handleTopology st (.ok body)).result ∧
        (handleTopology st (.ok other)).started = (handleTopology st (.ok body)).started := by
  refine ⟨rfl, fun h => by simp [handleTopology, h], rfl, rfl, rfl, rfl, ?_⟩
  intro other h
  simp [handleTopology, h]

/-! ## Completion callback -/

theorem rpcCallback_ack (node : NodeId) (b : BroadcastOkResponseBody) (acked : List NodeId)
    (h : b.type = "broadcast_ok") :
    rpcCallback node (.ok b) acked =
      (.ok (), if node ∈ acked then acked else acked ++ [node]) := by
  by_cases hm : node ∈ acked <;> simp [rpcCallback, h, hm]

theorem rpcCallback_wrong_kind (node : NodeId) (b : BroadcastOkResponseBody)
    (acked : List NodeId) (h : b.type ≠ "broadcast_ok") :
    rpcCallback node (.ok b) acked =
      (.error ("expeted type broadcast_ok, got " ++ b.type), acked) := by
  simp [rpcCallback, h]

theorem step_reply (scope : LoopVarScope) (r : Running) (sentTo : NodeId)
    (decoded : Except String BroadcastOkResponseBody) :
    step scope r (.reply sentTo decoded) =
      if sentTo ∈ r.outstanding then
        { r with
          outstanding := r.outstanding.erase sentTo
          task := { r.task with
            successfulSentDestinations :=
              (rpcCallback (closureNode scope r.task sentTo) decoded
                r.task.successfulSentDestinations).2 } }
      else r := rfl

theorem step_wake (scope : LoopVarScope) (r : Running) :
    step scope r .wake =
      if r.finished then r
      else if loopCondition r.task then
        { r with outstanding := r.outstanding ++ r.task.destinations
                 sent := r.sent ++ round r.task }
      else { r with finished := true } := rfl

/-- C9: for a reply whose body does not decode or whose type is not
`broadcast_ok`, the completion callback returns an error and leaves
`successfulSentDestinations` as it was, whatever the captured neighbour; the
running task keeps its acknowledged list and its loop condition. -/
theorem malformed_reply_is_not_ack (scope : LoopVarScope) (r : Running) (node sentTo : NodeId)
    (decoded : Except String BroadcastOkResponseBody) (h : notAck decoded) :
    (∃ e, (rpcCallback node decoded r.task.successfulSentDestinations).1 = .error e) ∧
      (rpcCallback node decoded r.task.successfulSentDestinations).2 =
        r.task.successfulSentDestinations ∧
      (step scope r (.reply sentTo decoded)).task = r.task ∧
      loopCondition (step scope r (.reply sentTo decoded)).task = loopCondition r.task ∧
      (step scope r (.reply sentTo decoded)).finished = r.finished := by
  have key : (∃ e, (rpcCallback node decoded r.task.successfulSentDestinations).1 = .error e) ∧
      ∀ n, (rpcCallback n decoded r.task.successfulSentDestinations).2 =
        r.task.successfulSentDestinations := by
    cases decoded with
    | error e => exact ⟨⟨e, rfl⟩, fun _ => rfl⟩
    | ok b =>
      have hb : b.type ≠ "broadcast_ok" := h
      exact ⟨⟨_, by rw [rpcCallback_wrong_kind _ _ _ hb]⟩,
        fun n => by rw [rpcCallback_wrong_kind _ _ _ hb]⟩
  have htask : (step scope r (.reply sentTo decoded)).task = r.task := by
    rw [step_reply]
    split_ifs with hm
    · simp [key.2]
    · rfl
  refine ⟨key.1, key.2 node, htask, by rw [htask], ?_⟩
  rw [step_reply]
  split_ifs <;> rfl

theorem malformed_reply_is_not_ack_witness :
    notAck (.ok { inReplyTo := 1, type := "error" }) ∧
      (step .perIteration
        { task := newTask ["n1", "n2"] { type := "broadcast", message := 5 },
          outstanding := ["n1", "n2"], sent := [], finished := false }
        (.reply "n1" (.ok { inReplyTo := 1, type := "error" }))).task =
        newTask ["n1", "n2"] { type := "broadcast", message := 5 } :=
  ⟨by simp [notAck],
    (malformed_reply_is_not_ack .perIteration
      { task := newTask ["n1", "n2"] { type := "broadcast", message := 5 },
        outstanding := ["n1", "n2"], sent := [], finished := false } "n1" "n1"
      (.ok { inReplyTo := 1, type := "error" }) (by simp [notAck])).2.2.1⟩

/-- With the per-iteration range variable of Go 1.22 and later, a well-formed
`broadcast_ok` reply to the RPC that was sent to `x` makes the callback return
`nil` and
leaves the acknowledged list as it was with `x` added when absent: its members
are `x` and the old members, nothing changes when `x` was already there, and a
second such reply changes nothing. -/
theorem ack_attributed_and_idempotent (r : Running) (x : NodeId) (b : BroadcastOkResponseBody)
    (hb : b.type = "broadcast_ok") (hx : x ∈ r.outstanding) :
    (rpcCallback (closureNode .perIteration r.task x) (.ok b)
        r.task.successfulSentDestinations).1 = .ok () ∧
      (step .perIteration r (.reply x (.ok b))).task.successfulSentDestinations =
        (if x ∈ r.task.successfulSentDestinations then r.task.successfulSentDestinations
          else r.task.successfulSentDestinations ++ [x]) ∧
      (∀ y, y ∈ (step .perIteration r (.reply x (.ok b))).task.successfulSentDestinations ↔
        y = x ∨ y ∈ r.task.successfulSentDestinations) ∧
      (x ∈ r.task.successfulSentDestinations →
        (step .perIteration r (.reply x (.ok b))).task = r.task) ∧
      (∀ b2 : BroadcastOkResponseBody, b2.type = "broadcast_ok" →
        (rpcCallback (closureNode .perIteration r.task x) (.ok b2)
          (step .perIteration r (.reply x (.ok b))).task.successfulSentDestinations).2 =
        (step .perIteration r (.reply x (.ok b))).task.successfulSentDestinations) := by
  have hs : (step .perIteration r (.reply x (.ok b))).task.successfulSentDestinations =
      (if x ∈ r.task.successfulSentDestinations then r.task.successfulSentDestinations
        else r.task.successfulSentDestinations ++ [x]) := by
    simp [step, hx, closureNode, rpcCallback_ack _ _ _ hb]
  refine ⟨by rw [rpcCallback_ack _ _ _ hb], hs, ?_, ?_, ?_⟩
  · intro y
    rw [hs]
    split_ifs with hm
    · constructor
      · exact fun h => Or.inr h
      · rintro (rfl | h)
        · exact hm
        · exact h
    · simp [or_comm]
  · intro hm
    simp [step, hx, closureNode, rpcCallback_ack _ _ _ hb, hm]
  · intro b2 hb2
    rw [hs, closureNode, rpcCallback_ack _ _ _ hb2]
    split_ifs <;> simp_all

theorem ack_attributed_and_idempotent_witness :
    (step .perIteration
      { task := newTask ["n1", "n2"] { type := "broadcast", message := 5 },
        outstanding := ["n1", "n2"], sent := [], finished := false }
      (.reply "n1" (.ok { inReplyTo := 1, type := "broadcast_ok" }))).task.successfulSentDestinations =
        (if "n1" ∈ ([] : List NodeId) then [] else [] ++ ["n1"]) :=
  (ack_attributed_and_idempotent
    { task := newTask ["n1", "n2"] { type := "broadcast", message := 5 },
      outstanding := ["n1", "n2"], sent := [], finished := false } "n1"
    { inReplyTo := 1, type := "broadcast_ok" } rfl (by simp)).2.1

/-! ## Dissemination loop -/

theorem rpcCallback_cases (node : NodeId) (decoded : Except String BroadcastOkResponseBody)
    (acked : List NodeId) :
    (rpcCallback node decoded acked).2 = acked ∨
      (node ∉ acked ∧ (rpcCallback node decoded acked).2 = acked ++ [node] ∧
        ∃ b, decoded = .ok b ∧ b.type = "broadcast_ok") := by
  cases decoded with
  | error e => exact Or.inl rfl
  | ok b =>
    by_cases hb : b.type = "broadcast_ok"
    · rw [rpcCallback_ack _ _ _ hb]
      by_cases hm : node ∈ acked
      · simp [hm]
      · exact Or.inr ⟨hm, by simp [hm], b, rfl, hb⟩
    · rw [rpcCallback_wrong_kind _ _ _ hb]
      exact Or.inl rfl

theorem closureNode_mem (scope : LoopVarScope) (t : Task) (x : NodeId)
    (h : x ∈ t.destinations) : closureNode scope t x ∈ t.destinations := by
  cases scope with
  | perIteration => exact h
  | perLoop =>
    have hne : t.destinations ≠ [] := List.ne_nil_of_mem h
    simp [closureNode, List.getLast?_eq_getLast _ hne, List.getLast_mem]

theorem run_append (scope : LoopVarScope) (r : Running) (es : List Event) (e : Event) :
    run scope r (es ++ [e]) = step scope (run scope r es) e := by
  simp [run, List.foldl_append]

theorem inv_start (dests : List NodeId) (body : BroadcastRequestBody) :
    Inv dests (start (newTask dests body)) :=
  ⟨rfl, List.nodup_nil, fun _ h => by simp [Broadcast.start, newTask] at h,
    fun _ h => by simp [Broadcast.start] at h⟩

theorem inv_step {dests : List NodeId} {r : Running} (scope : LoopVarScope) (h : Inv dests r)
    (e : Event) : Inv dests (step scope r e) := by
  cases e with
  | wake =>
    rw [step_wake]
    split_ifs
    · exact h
    · refine ⟨h.dests_eq, h.nodup, h.acked_sub, ?_⟩
      intro x hx
      rcases List.mem_append.mp hx with hx | hx
      · exact h.out_sub x hx
      · exact h.dests_eq ▸ hx
    · exact ⟨h.dests_eq, h.nodup, h.acked_sub, h.out_sub⟩
  | reply sentTo decoded =>
    rw [step_reply]
    split_ifs with hm
    · have hd : sentTo ∈ r.task.destinations := h.dests_eq ▸ h.out_sub _ hm
      have hc := closureNode_mem scope r.task sentTo hd
      refine ⟨h.dests_eq, ?_, ?_, fun x hx => h.out_sub x (List.mem_of_mem_erase hx)⟩
      · rcases rpcCallback_cases (closureNode scope r.task sentTo) decoded
          r.task.successfulSentDestinations with heq | ⟨hn, heq, _⟩
        · simpa [heq] using h.nodup
        · simp only [heq]
          exact List.Nodup.append h.nodup (List.nodup_singleton _) (by simpa using hn)
      · intro x hx
        rcases rpcCallback_cases (closureNode scope r.task sentTo) decoded
          r.task.successfulSentDestinations with heq | ⟨_, heq, _⟩
        · simp only [heq] at hx
          exact h.acked_sub x hx
        · simp only [heq, List.mem_append, List.mem_singleton] at hx
          rcases hx with hx | rfl
          · exact h.acked_sub x hx
          · exact h.dests_eq ▸ hc
    · exact h

theorem inv_run (scope : LoopVarScope) (dests : List NodeId) (body : BroadcastRequestBody)
    (es : List Event) : Inv dests (run scope (start (newTask dests body)) es) := by
  induction es using List.reverseRecOn with
  | nil => exact inv_start dests body
  | append_singleton es e ih => rw [run_append]; exact inv_step scope ih e

/-- A duplicate-free sublist of the snapshot is shorter than a snapshot that
names a neighbour twice. -/
theorem length_lt_of_duplicate {acked dests : List NodeId} (hn : acked.Nodup)
    (hs : ∀ x ∈ acked, x ∈ dests) (hd : ¬ dests.Nodup) : acked.length < dests.length := by
  have h1 : acked.length ≤ dests.dedup.length :=
    (List.subperm_of_subset hn (fun x hx => List.mem_dedup.mpr (hs x hx))).length_le
  have h2 : dests.dedup.length ≤ dests.length := (List.dedup_sublist dests).length_le
  rcases Nat.lt_or_ge dests.dedup.length dests.length with h3 | h3
  · omega
  · exact absurd ((List.dedup_sublist dests).eq_of_length_le h3 ▸ List.nodup_dedup dests) hd

/-- With as many acknowledged neighbours as the snapshot is long, every
neighbour of the snapshot is acknowledged. -/
theorem all_acked_of_length_eq {acked dests : List NodeId} (hn : acked.Nodup)
    (hs : ∀ x ∈ acked, x ∈ dests) (hl : dests.length = acked.length) :
    ∀ d ∈ dests, d ∈ acked := by
  intro d hd
  exact ((List.subperm_of_subset hn hs).perm_of_length_le (le_of_eq hl)).mem_iff.mpr hd

theorem loopCondition_eq_false {t : Task} :
    loopCondition t = false ↔ t.destinations.length = t.successfulSentDestinations.length := by
  simp [loopCondition]

/-- A task whose snapshot names a neighbour twice never leaves its loop. -/
theorem not_finished_of_duplicate (scope : LoopVarScope) (dests : List NodeId)
    (body : BroadcastRequestBody) (hd : ¬ dests.Nodup) (es : List Event) :
    loopCondition (run scope (start (newTask dests body)) es).task = true ∧
      (run scope (start (newTask dests body)) es).finished = false := by
  have hc : ∀ es, loopCondition (run scope (start (newTask dests body)) es).task = true := by
    intro es
    have hi := inv_run scope dests body es
    have hlt := length_lt_of_duplicate hi.nodup hi.acked_sub hd
    cases hlc : loopCondition (run scope (start (newTask dests body)) es).task with
    | true => rfl
    | false =>
      have := loopCondition_eq_false.mp hlc
      rw [hi.dests_eq] at this
      omega
  refine ⟨hc es, ?_⟩
  induction es using List.reverseRecOn with
  | nil => rfl
  | append_singleton es e ih =>
    rw [run_append]
    cases e with
    | wake => rw [step_wake]; simp [ih, hc es]
    | reply x d =>
      rw [step_reply]
      split_ifs
      · exact ih
      · exact ih

/-- What the per-iteration task keeps true along any sequence of events: its
body, the justification of recorded acknowledgments, that it exits only with
every neighbour acknowledged, and that every request issued carries the body
to a neighbour of the snapshot. -/
theorem history_run (dests : List NodeId) (body : BroadcastRequestBody) (es : List Event) :
    (run .perIteration (start (newTask dests body)) es).task.body = body ∧
      Justified es (run .perIteration (start (newTask dests body)) es) ∧
      ((run .perIteration (start (newTask dests body)) es).finished = true →
        ∀ d ∈ dests, d ∈ (run .perIteration (start (newTask dests body))
          es).task.successfulSentDestinations) ∧
      ∀ p ∈ (run .perIteration (start (newTask dests body)) es).sent,
        p.2 = body ∧ p.1 ∈ dests := by
  induction es using List.reverseRecOn with
  | nil =>
    refine ⟨rfl, ?_, ?_, ?_⟩
    · intro x hx
      simp [run, start, newTask] at hx
    · intro h
      simp [run, start] at h
    · intro q hq
      simp [run, start] at hq
  | append_singleton es e ih =>
    obtain ⟨hb, hj, hf, hs⟩ := ih
    have hi := inv_run .perIteration dests body es
    rw [run_append]
    generalize run .perIteration (start (newTask dests body)) es = r at hb hj hf hs hi
    cases e with
    | wake =>
      rw [step_wake]
      split_ifs with h1 h2
      · exact ⟨hb, fun x hx => (hj x hx).imp fun e he => ⟨by simp [he.1], he.2⟩, hf, hs⟩
      · refine ⟨hb, fun x hx => (hj x hx).imp fun e he => ⟨by simp [he.1], he.2⟩,
          fun h => absurd h h1, ?_⟩
        intro q hq
        rcases List.mem_append.mp hq with hq | hq
        · exact hs q hq
        · simp only [round, List.mem_map] at hq
          obtain ⟨d, hd, rfl⟩ := hq
          exact ⟨hb, hi.dests_eq ▸ hd⟩
      · refine ⟨hb, fun x hx => (hj x hx).imp fun e he => ⟨by simp [he.1], he.2⟩, ?_, hs⟩
        intro _
        have hl := loopCondition_eq_false.mp (Bool.not_eq_true _ ▸ h2)
        rw [hi.dests_eq] at hl
        exact all_acked_of_length_eq hi.nodup hi.acked_sub hl
    | reply x d =>
      rw [step_reply]
      split_ifs with hm
      · rcases rpcCallback_cases (closureNode .perIteration r.task x) d
          r.task.successfulSentDestinations with heq | ⟨_, heq, b, hd, hbt⟩
        · refine ⟨hb, ?_, ?_, hs⟩
          · intro y hy
            simp only [heq] at hy
            exact (hj y hy).imp fun e he => ⟨by simp [he.1], he.2⟩
          · intro h d' hd'
            simp only [heq]
            exact hf h d' hd'
        · refine ⟨hb, ?_, ?_, hs⟩
          · intro y hy
            simp only [heq, List.mem_append, List.mem_singleton] at hy
            rcases hy with hy | hy
            · exact (hj y hy).imp fun e he => ⟨by simp [he.1], he.2⟩
            · have hyx : y = x := hy
              exact ⟨.reply x d, by simp, by simp [Event.isAckFrom, hd, hbt, hyx]⟩
          · intro h d' hd'
            simp only [heq, List.mem_append]
            exact Or.inl (hf h d' hd')
      · exact ⟨hb, fun y hy => (hj y hy).imp fun e he => ⟨by simp [he.1], he.2⟩, hf, hs⟩

/-- For a duplicate-free snapshot the loop condition is false once every
neighbour of the snapshot is recorded as acknowledged. -/
theorem loop_exits_when_all_recorded (scope : LoopVarScope) (dests : List NodeId)
    (body : BroadcastRequestBody) (es : List Event) (hn : dests.Nodup)
    (h : ∀ d ∈ dests, d ∈ (run scope (start (newTask dests body))
      es).task.successfulSentDestinations) :
    loopCondition (run scope (start (newTask dests body)) es).task = false := by
  have hi := inv_run scope dests body es
  rw [loopCondition_eq_false, hi.dests_eq]
  exact le_antisymm (List.subperm_of_subset hn h).length_le
    (List.subperm_of_subset hi.nodup hi.acked_sub).length_le

/-- C5 (at the failing input): a task whose snapshot is `["n1", "n1"]` sends
two requests in its first round; when `n1` has answered both with a
well-formed `broadcast_ok` no callback is outstanding and `n1` is recorded
once, yet the loop condition is still true and the next check issues a second
round; along every sequence of events the loop condition stays true and the
task never exits. -/
theorem duplicate_neighbour_never_terminates (scope : LoopVarScope) (es : List Event) :
    (run scope (start (newTask ["n1", "n1"] { type := "broadcast", message := 5 }))
        [.wake, .reply "n1" (.ok { inReplyTo := 1, type := "broadcast_ok" }),
          .reply "n1" (.ok { inReplyTo := 2, type := "broadcast_ok" })]) =
      { task := { destinations := ["n1", "n1"], body := { type := "broadcast", message := 5 },
                  successfulSentDestinations := ["n1"] },
        outstanding := [],
        sent := [("n1", { type := "broadcast", message := 5 }),
                 ("n1", { type := "broadcast", message := 5 })],
        finished := false } ∧
      (run scope (start (newTask ["n1", "n1"] { type := "broadcast", message := 5 }))
        [.wake, .reply "n1" (.ok { inReplyTo := 1, type := "broadcast_ok" }),
          .reply "n1" (.ok { inReplyTo := 2, type := "broadcast_ok" }), .wake]).sent.length = 4 ∧
      loopCondition (run scope (start (newTask ["n1", "n1"]
        { type := "broadcast", message := 5 })) es).task = true ∧
      (run scope (start (newTask ["n1", "n1"]
        { type := "broadcast", message := 5 })) es).finished = false := by
  refine ⟨?_, ?_, not_finished_of_duplicate scope _ _ (by decide) es⟩
  · cases scope <;> decide
  · cases scope <;> decide

/-- C6: with the per-iteration range variable, along every sequence of
events of a task started on snapshot `dests` for `body`: every request issued
carries `body` to a neighbour of the snapshot; a round issues one request with
`body` to every neighbour of the snapshot, acknowledged or not, so none that
has not acknowledged is omitted; and while some neighbour of the snapshot has
sent no well-formed `broadcast_ok`, the loop condition is true, the task has
not exited, and its next check issues a request to that neighbour. -/
theorem never_skips_unacknowledged (dests : List NodeId) (body : BroadcastRequestBody)
    (es : List Event) :
    (∀ p ∈ (run .perIteration (start (newTask dests body)) es).sent, p.2 = body ∧ p.1 ∈ dests) ∧
      ((run .perIteration (start (newTask dests body)) es).finished = false →
        loopCondition (run .perIteration (start (newTask dests body)) es).task = true →
        (run .perIteration (start (newTask dests body)) (es ++ [.wake])).sent =
          (run .perIteration (start (newTask dests body)) es).sent ++
            dests.map fun d => (d, body)) ∧
      ∀ d ∈ dests, (∀ e ∈ es, Event.isAckFrom d e = false) →
        loopCondition (run .perIteration (start (newTask dests body)) es).task = true ∧
        (run .perIteration (start (newTask dests body)) es).finished = false ∧
        (run .perIteration (start (newTask dests body)) (es ++ [.wake])).finished = false ∧
        (d, body) ∈ (run .perIteration (start (newTask dests body)) (es ++ [.wake])).sent := by
  obtain ⟨hb, hj, hf, hs⟩ := history_run dests body es
  have hi := inv_run .perIteration dests body es
  have hround : (run .perIteration (start (newTask dests body)) es).finished = false →
      loopCondition (run .perIteration (start (newTask dests body)) es).task = true →
      run .perIteration (start (newTask dests body)) (es ++ [.wake]) =
        { run .perIteration (start (newTask dests body)) es with
          outstanding := (run .perIteration (start (newTask dests body)) es).outstanding ++ dests
          sent := (run .perIteration (start (newTask dests body)) es).sent ++
            dests.map fun d => (d, body) } := by
    intro h1 h2
    rw [run_append, step_wake]
    simp [h1, h2, round, hi.dests_eq, hb]
  refine ⟨hs, fun h1 h2 => by rw [hround h1 h2], ?_⟩
  intro d hd hno
  have hnot : d ∉ (run .perIteration (start (newTask dests body))
      es).task.successfulSentDestinations := by
    intro hmem
    obtain ⟨e, he, hack⟩ := hj d hmem
    rw [hno e he] at hack
    exact Bool.false_ne_true hack
  have hfin : (run .perIteration (start (newTask dests body)) es).finished = false := by
    cases hfi : (run .perIteration (start (newTask dests body)) es).finished with
    | false => rfl
    | true => exact absurd (hf hfi d hd) hnot
  have hcond : loopCondition (run .perIteration (start (newTask dests body)) es).task = true := by
    cases hlc : loopCondition (run .perIteration (start (newTask dests body)) es).task with
    | true => rfl
    | false =>
      have hl := loopCondition_eq_false.mp hlc
      rw [hi.dests_eq] at hl
      exact absurd (all_acked_of_length_eq hi.nodup hi.acked_sub hl d hd) hnot
  refine ⟨hcond, hfin, ?_, ?_⟩
  · rw [hround hfin hcond]; exact hfin
  · rw [hround hfin hcond]
    exact List.mem_append_right _ (List.mem_map.mpr ⟨d, hd, rfl⟩)

theorem never_skips_unacknowledged_witness :
    (∀ e ∈ [Event.wake, .reply "n1" (.ok { inReplyTo := 1, type := "broadcast_ok" })],
        Event.isAckFrom "n2" e = false) ∧
      (("n2", { type := "broadcast", message := 5 }) : NodeId × BroadcastRequestBody) ∈
        (run .perIteration (start (newTask ["n1", "n2"] { type := "broadcast", message := 5 }))
          ([.wake, .reply "n1" (.ok { inReplyTo := 1, type := "broadcast_ok" })] ++
            [.wake])).sent :=
  ⟨by decide,
    ((never_skips_unacknowledged ["n1", "n2"] { type := "broadcast", message := 5 }
      [.wake, .reply "n1" (.ok { inReplyTo := 1, type := "broadcast_ok" })]).2.2 "n2"
      (by decide) (by decide)).2.2.2⟩

/-! ## Snapshot of the neighbour list -/

theorem step_keeps_snapshot (scope : LoopVarScope) (r : Running) (e : Event) :
    (step scope r e).task.destinations = r.task.destinations ∧
      (step scope r e).task.body = r.task.body := by
  cases e with
  | wake => rw [step_wake]; split_ifs <;> exact ⟨rfl, rfl⟩
  | reply x d => rw [step_reply]; split_ifs <;> exact ⟨rfl, rfl⟩

theorem system_step_keeps_snapshot (scope : LoopVarScope) (s : System) (ev : SystemEvent)
    (i : Nat) (r : Running) (h : s.tasks[i]? = some r) :
    ∃ r2, (System.step scope s ev).tasks[i]? = some r2 ∧
      r2.task.destinations = r.task.destinations ∧ r2.task.body = r.task.body := by
  cases ev with
  | request req =>
    refine ⟨r, ?_, rfl, rfl⟩
    have hlt : i < s.tasks.length := (List.getElem?_eq_some_iff.mp h).1
    simp only [System.step]
    rw [List.getElem?_append_left hlt]
    exact h
  | task j e =>
    simp only [System.step, List.getElem?_modify, h]
    by_cases hji : j = i
    · exact ⟨step scope r e, by simp [hji], (step_keeps_snapshot scope r e).1,
        (step_keeps_snapshot scope r e).2⟩
    · exact ⟨r, by simp [hji], rfl, rfl⟩

/-- C7: the topology handler leaves every running task as it is, and a task
that runs on snapshot `r.task.destinations` still has that snapshot, and
issues its rounds to it, after any sequence of requests (topology requests
included) and task events. -/
theorem snapshot_isolation (scope : LoopVarScope) (s : System) (events : List SystemEvent)
    (i : Nat) (r : Running) (h : s.tasks[i]? = some r) :
    (∀ d, (System.step scope s (.request (.topology d))).tasks = s.tasks) ∧
      ∃ r2, (System.run scope s events).tasks[i]? = some r2 ∧
        r2.task.destinations = r.task.destinations ∧ round r2.task = round r.task := by
  constructor
  · intro d
    cases d <;> simp [System.step, handle, handleTopology]
  · have key : ∀ (events : List SystemEvent) (s : System) (r : Running), s.tasks[i]? = some r →
        ∃ r2, (System.run scope s events).tasks[i]? = some r2 ∧
          r2.task.destinations = r.task.destinations ∧ r2.task.body = r.task.body := by
      intro events
      induction events with
      | nil => intro s r h; exact ⟨r, h, rfl, rfl⟩
      | cons ev rest ih =>
        intro s r h
        obtain ⟨r1, h1, hd1, hb1⟩ := system_step_keeps_snapshot scope s ev i r h
        obtain ⟨r2, h2, hd2, hb2⟩ := ih (System.step scope s ev) r1 h1
        exact ⟨r2, h2, hd2.trans hd1, hb2.trans hb1⟩
    obtain ⟨r2, h2, hd, hb⟩ := key events s r h
    exact ⟨r2, h2, hd, by simp [round, hd, hb]⟩

theorem snapshot_isolation_witness :
    ([start (newTask ["n1"] { type := "broadcast", message := 5 })][0]? =
        some (start (newTask ["n1"] { type := "broadcast", message := 5 }))) ∧
      (System.run .perIteration
        { node := { id := "n0", messages := [5], destinations := ["n1"] },
          tasks := [start (newTask ["n1"] { type := "broadcast", message := 5 })] }
        [.request (.topology (.ok { type := "topology", topology := [("n0", ["n2", "n3"])] })),
          .task 0 .wake]).node.destinations = ["n2", "n3"] ∧
      ∃ r2, (System.run .perIteration
        { node := { id := "n0", messages := [5], destinations := ["n1"] },
          tasks := [start (newTask ["n1"] { type := "broadcast", message := 5 })] }
        [.request (.topology (.ok { type := "topology", topology := [("n0", ["n2", "n3"])] })),
          .task 0 .wake]).tasks[0]? = some r2 ∧
        r2.task.destinations =
          (start (newTask ["n1"] { type := "broadcast", message := 5 })).task.destinations ∧
        round r2.task = round (start (newTask ["n1"] { type := "broadcast", message := 5 })).task :=
  ⟨rfl, by decide,
    (snapshot_isolation .perIteration
      { node := { id := "n0", messages := [5], destinations := ["n1"] },
        tasks := [start (newTask ["n1"] { type := "broadcast", message := 5 })] }
      [.request (.topology (.ok { type := "topology", topology := [("n0", ["n2", "n3"])] })),
        .task 0 .wake] 0 (start (newTask ["n1"] { type := "broadcast", message := 5 })) rfl).2⟩

/-! ## Concurrent broadcast handlers -/

/-- A handler that runs alone from its first statement to its last does what
`handleBroadcast` does. -/
theorem conc_alone_eq_handleBroadcast (st : State) (b1 b2 : BroadcastRequestBody) :
    (Conc.run (Conc.init st b1 b2) [false, false, false, false]).state =
        (handleBroadcast st (.ok b1)).state ∧
      (Conc.run (Conc.init st b1 b2) [false, false, false, false]).tasks =
        (handleBroadcast st (.ok b1)).started ∧
      (Conc.run (Conc.init st b1 b2) [false, false, false, false]).replies.map
          (fun r => Except.ok (some r)) = [(handleBroadcast st (.ok b1)).result] ∧
      (Conc.run (Conc.init st b1 b2) [false, false, false, false]).first.pc = .done ∧
      (Conc.run (Conc.init st b1 b2) [false, false, false, false]).first.judgedNew =
        some (decide (b1.message ∉ st.messages)) := by
  by_cases hm : b1.message ∈ st.messages
  · simp [Conc.run, Conc.step, Conc.init, stepHandler, handleBroadcast_known st b1 hm, hm]
  · simp [Conc.run, Conc.step, Conc.init, stepHandler, handleBroadcast_fresh st b1 hm, hm]

/-- C2 (at the failing input): two broadcast handlers receive the unseen
value 5 on an empty store; when both execute the membership test of line 72
before either appends, both judge the value new, two dissemination tasks are
started and the list holds 5 twice; when the first handler finishes before the
second starts, only the first judges it new. -/
theorem concurrent_first_arrivals_both_new :
    (Conc.run
        (Conc.init { id := "n0", messages := [], destinations := ["n1"] }
          { type := "broadcast", message := 5 } { type := "broadcast", message := 5 })
        [false, true, false, true, false, true, false, true]) =
      { state := { id := "n0", messages := [5, 5], destinations := ["n1"] },
        tasks := [newTask ["n1"] { type := "broadcast", message := 5 },
                  newTask ["n1"] { type := "broadcast", message := 5 }],
        replies := [.broadcast { type := "broadcast_ok" }, .broadcast { type := "broadcast_ok" }],
        first := { body := { type := "broadcast", message := 5 }, pc := .done,
                   judgedNew := some true },
        second := { body := { type := "broadcast", message := 5 }, pc := .done,
                    judgedNew := some true } } ∧
      (readMessages (Conc.run
        (Conc.init { id := "n0", messages := [], destinations := ["n1"] }
          { type := "broadcast", message := 5 } { type := "broadcast", message := 5 })
        [false, true, false, true, false, true, false, true]).state).count 5 = 2 ∧
      (Conc.run
        (Conc.init { id := "n0", messages := [], destinations := ["n1"] }
          { type := "broadcast", message := 5 } { type := "broadcast", message := 5 })
        [false, false, false, false, true, true, true, true]) =
      { state := { id := "n0", messages := [5], destinations := ["n1"] },
        tasks := [newTask ["n1"] { type := "broadcast", message := 5 }],
        replies := [.broadcast { type := "broadcast_ok" }, .broadcast { type := "broadcast_ok" }],
        first := { body := { type := "broadcast", message := 5 }, pc := .done,
                   judgedNew := some true },
        second := { body := { type := "broadcast", message := 5 }, pc := .done,
                    judgedNew := some false } } := by
  refine ⟨by decide, by decide, by decide⟩

/-- Under the shared range variable of Go before 1.22, with replies processed
after the send loop, the acknowledgment of `n1` is recorded for `n2`, the last
neighbour of the snapshot. -/
theorem perLoop_records_last_neighbour :
    (run .perLoop (start (newTask ["n1", "n2"] { type := "broadcast", message := 5 }))
      [.wake, .reply "n1" (.ok { inReplyTo := 1, type := "broadcast_ok" })]
      ).task.successfulSentDestinations = ["n2"] ∧
    (run .perIteration (start (newTask ["n1", "n2"] { type := "broadcast", message := 5 }))
      [.wake, .reply "n1" (.ok { inReplyTo := 1, type := "broadcast_ok" })]
      ).task.successfulSentDestinations = ["n1"] := by
  refine ⟨by decide, by decide⟩

end Broadcast

/-! # Go maps -/

namespace Go

theorem mapGet_mapDelete_ne {κ ν : Type} [DecidableEq κ] (m : List (κ × ν)) (k k2 : κ)
    (h : k2 ≠ k) : mapGet (mapDelete m k) k2 = mapGet m k2 := by
  induction m with
  | nil => rfl
  | cons p rest ih =>
    obtain ⟨k1, v⟩ := p
    by_cases h1 : k1 = k
    · have h2 : k1 ≠ k2 := fun h3 => h (h3 ▸ h1)
      simp [mapDelete, h1, mapGet, ih, h1 ▸ h2]
    · by_cases h2 : k1 = k2
      · subst h2
        simp [mapDelete, h1, mapGet]
      · simp [mapDelete, h1, mapGet, h2, ih]

theorem mapGet_mapSet_self {κ ν : Type} [DecidableEq κ] (m : List (κ × ν)) (k : κ) (v : ν) :
    mapGet (mapSet m k v) k = some v := by
  simp [mapSet, mapGet]

theorem mapGet_mapSet_ne {κ ν : Type} [DecidableEq κ] (m : List (κ × ν)) (k k2 : κ) (v : ν)
    (h : k2 ≠ k) : mapGet (mapSet m k v) k2 = mapGet m k2 := by
  simp [mapSet, mapGet, Ne.symm h, mapGet_mapDelete_ne m k k2 h]

theorem mapGet_mapSet {κ ν : Type} [DecidableEq κ] (m : List (κ × ν)) (k k2 : κ) (v : ν) :
    mapGet (mapSet m k v) k2 = if k2 = k then some v else mapGet m k2 := by
  by_cases h : k2 = k
  · subst h; simp [mapGet_mapSet_self]
  · simp [h, mapGet_mapSet_ne m k k2 v h]

theorem mapGet_eq_none_iff {κ ν : Type} [DecidableEq κ] (m : List (κ × ν)) (k : κ) :
    mapGet m k = none ↔ k ∉ mapKeys m := by
  induction m with
  | nil => simp [mapGet, mapKeys]
  | cons p rest ih =>
    obtain ⟨k1, v⟩ := p
    by_cases h : k1 = k
    · simp [mapGet, mapKeys, h]
    · simp only [mapGet, h, if_false, ih]
      simp [mapKeys, Ne.symm h]

theorem mapKeys_nodup {κ ν : Type} [DecidableEq κ] (m : List (κ × ν)) : (mapKeys m).Nodup :=
  List.nodup_dedup _

theorem incr_eq (x : Int) (h0 : 0 ≤ x) (h1 : x + 1 < 9223372036854775808) : incr x = x + 1 := by
  unfold incr
  omega

end Go

/-! # Log node: send -/

namespace Kafka

open Go

theorem msgAt_eq (l : Logs) (k : String) (o : Int) :
    l.msgAt k o = mapGet ((mapGet l.msgs k).getD []) o := by
  unfold Logs.msgAt
  cases mapGet l.msgs k <;> simp [mapGet]

/-- The offset that the next `send` for `key` is answered with. -/
theorem handleSend_ok (st : State) (body : SendBody) :
    (handleSend st (.ok body) none).reply =
        some { type := "send_ok", offset := (mapGet st.uncommitted.offsets body.key).getD 0 } ∧
      (handleSend st (.ok body) none).result = .ok () ∧
      (handleSend st (.ok body) none).state.committed = st.committed ∧
      (∀ k, mapGet (handleSend st (.ok body) none).state.uncommitted.offsets k =
        if k = body.key then some (incr ((mapGet st.uncommitted.offsets body.key).getD 0))
        else mapGet st.uncommitted.offsets k) ∧
      ∀ k o, (handleSend st (.ok body) none).state.uncommitted.msgAt k o =
        if k = body.key ∧ o = (mapGet st.uncommitted.offsets body.key).getD 0 then some body.msg
        else st.uncommitted.msgAt k o := by
  have hoff : (mapGet (if (mapGet st.uncommitted.offsets body.key).isNone then
        mapSet st.uncommitted.offsets body.key 0 else st.uncommitted.offsets) body.key).getD 0 =
      (mapGet st.uncommitted.offsets body.key).getD 0 := by
    cases h : mapGet st.uncommitted.offsets body.key <;> simp [mapGet_mapSet_self, h]
  have hmsgs : (mapGet (if (mapGet st.uncommitted.msgs body.key).isNone then
        mapSet st.uncommitted.msgs body.key [] else st.uncommitted.msgs) body.key).getD [] =
      (mapGet st.uncommitted.msgs body.key).getD [] := by
    cases h : mapGet st.uncommitted.msgs body.key <;> simp [mapGet_mapSet_self, h]
  refine ⟨?_, rfl, rfl, ?_, ?_⟩
  · simp only [handleSend, hoff]
  · intro k
    simp only [handleSend, hoff, mapGet_mapSet]
    split_ifs with h1 h2
    · rfl
    · rw [mapGet_mapSet_ne _ _ _ _ h1]
    · rfl
  · intro k o
    simp only [handleSend, hoff, hmsgs, msgAt_eq, mapGet_mapSet]
    by_cases hk : k = body.key
    · subst hk
      simp only [true_and, if_true, Option.getD_some, mapGet_mapSet]
    · simp only [hk, false_and, if_false]
      split_ifs with h2
      · rw [mapGet_mapSet_ne _ _ _ _ hk]
      · rfl

theorem sendAll_append (st : State) (sends : List SendBody) (body : SendBody) :
    sendAll st (sends ++ [body]) =
      ((handleSend (sendAll st sends).1 (.ok body) none).state,
        (sendAll st sends).2 ++
          [(body, (mapGet (sendAll st sends).1.uncommitted.offsets body.key).getD 0)]) := by
  simp [sendAll, List.foldl_append, (handleSend_ok _ body).1]

theorem sendsTo_append (k : String) (sends : List SendBody) (body : SendBody) :
    sendsTo k (sends ++ [body]) = sendsTo k sends + if body.key = k then 1 else 0 := by
  by_cases h : body.key = k <;> simp [sendsTo, List.filter_append, List.filter_cons, h]

theorem sendsTo_le (k : String) (sends : List SendBody) : sendsTo k sends ≤ sends.length :=
  List.length_filter_le _ _

/-- What holds after any sequence of answered sends on the empty logs. -/
theorem sendAll_inv (sends : List SendBody) (hlen : sends.length < 9223372036854775808) :
    (∀ k, mapGet (sendAll State.empty sends).1.uncommitted.offsets k =
        if sendsTo k sends = 0 then none else some (sendsTo k sends : Int)) ∧
      (sendAll State.empty sends).2.map Prod.fst = sends ∧
      (∀ k, ((sendAll State.empty sends).2.filter fun p => decide (p.1.key = k)).map Prod.snd =
        (List.range (sendsTo k sends)).map Int.ofNat) ∧
      (∀ p ∈ (sendAll State.empty sends).2,
        (sendAll State.empty sends).1.uncommitted.msgAt p.1.key p.2 = some p.1.msg) ∧
      (∀ i p, (sendAll State.empty sends).2[i]? = some p →
        p.2 = (sendsTo p.1.key (sends.take i) : Int)) ∧
      (sendAll State.empty sends).1.committed = State.empty.committed := by
  induction sends using List.reverseRecOn with
  | nil =>
    refine ⟨fun k => ?_, rfl, fun k => ?_, fun p hp => ?_, fun i p hp => ?_, rfl⟩
    · simp [sendAll, State.empty, mapGet, sendsTo]
    · simp [sendAll, sendsTo]
    · simp [sendAll] at hp
    · simp [sendAll] at hp
  | append_singleton sends body ih =>
    have hlen1 : sends.length < 9223372036854775808 := by
      simp only [List.length_append, List.length_singleton] at hlen
      omega
    obtain ⟨h1, h2, h3, h4, h5, h6⟩ := ih hlen1
    have hoff : (mapGet (sendAll State.empty sends).1.uncommitted.offsets body.key).getD 0 =
        (sendsTo body.key sends : Int) := by
      rw [h1]
      split_ifs with h0
      · simp [h0]
      · rfl
    have hle := sendsTo_le body.key sends
    have hincr : incr (sendsTo body.key sends : Int) = (sendsTo body.key sends : Int) + 1 := by
      simp only [List.length_append, List.length_singleton] at hlen
      exact incr_eq _ (by omega) (by omega)
    obtain ⟨_, _, g3, g4, g5⟩ := handleSend_ok (sendAll State.empty sends).1 body
    rw [sendAll_append]
    simp only [hoff] at g4 g5 ⊢
    refine ⟨fun k => ?_, ?_, fun k => ?_, fun p hp => ?_, fun i p hp => ?_, ?_⟩
    · rw [g4, sendsTo_append]
      by_cases hk : k = body.key
      · subst hk
        simp [hincr]
      · simp [hk, Ne.symm hk, h1]
    · simp [h2]
    · rw [sendsTo_append]
      by_cases hk : body.key = k
      · subst hk
        simp [List.filter_append, List.filter_cons, h3, List.range_succ]
      · simp [List.filter_append, List.filter_cons, hk, h3]
    · rw [g5]
      rcases List.mem_append.mp hp with hp | hp
      · have hne : ¬(p.1.key = body.key ∧ p.2 = (sendsTo body.key sends : Int)) := by
          rintro ⟨hk, ho⟩
          have hmem : p.2 ∈ ((sendAll State.empty sends).2.filter
              fun p => decide (p.1.key = body.key)).map Prod.snd :=
            List.mem_map.mpr ⟨p, List.mem_filter.mpr ⟨hp, by simp [hk]⟩, rfl⟩
          rw [h3] at hmem
          obtain ⟨n, hn, hnp⟩ := List.mem_map.mp hmem
          have hn2 := List.mem_range.mp hn
          rw [ho] at hnp
          have : (n : Int) = (sendsTo body.key sends : Int) := hnp
          omega
        rw [if_neg hne]
        exact h4 p hp
      · simp only [List.mem_singleton] at hp
        subst hp
        simp
    · have hl : (sendAll State.empty sends).2.length = sends.length := by
        have := congrArg List.length h2
        simpa using this
      rcases Nat.lt_or_ge i sends.length with hi | hi
      · rw [List.getElem?_append_left (by omega)] at hp
        rw [List.take_append_of_le_length (by omega)]
        exact h5 i p hp
      · rcases Nat.eq_or_lt_of_le hi with hi | hi
        · subst hi
          rw [List.getElem?_append_right (by omega)] at hp
          simp only [hl, Nat.sub_self, List.getElem?_cons_zero, Option.some.injEq] at hp
          subst hp
          simp
        · rw [List.getElem?_append_right (by omega)] at hp
          have : i - (sendAll State.empty sends).2.length ≠ 0 := by omega
          obtain ⟨j, hj⟩ := Nat.exists_eq_succ_of_ne_zero this
          simp [hj] at hp
    · rw [g3, h6]

/-- C11: starting from the empty logs, for every sequence of fewer than 2^63
send requests that are answered: the requests are recorded in order; the
request number `i`, handled in the state that the requests before it leave, is
answered with a reply of type `send_ok` whose offset is the number of earlier
requests for its key, the handler returns `nil`, and it leaves the state that
the first `i + 1` requests leave; for every key the offsets answered, in send
order, are 0, 1, ..., one less than the number of sends to the key; and every
message is stored in the log of its key under the offset answered. -/
theorem send_offsets_consecutive (sends : List SendBody)
    (hlen : sends.length < 9223372036854775808) :
    (sendAll State.empty sends).2.map Prod.fst = sends ∧
      (∀ i p, (sendAll State.empty sends).2[i]? = some p →
        (handleSend (sendAll State.empty (sends.take i)).1 (.ok p.1) none).reply =
            some { type := "send_ok", offset := p.2 } ∧
          (handleSend (sendAll State.empty (sends.take i)).1 (.ok p.1) none).result = .ok () ∧
          (handleSend (sendAll State.empty (sends.take i)).1 (.ok p.1) none).state =
            (sendAll State.empty (sends.take (i + 1))).1 ∧
          p.2 = (sendsTo p.1.key (sends.take i) : Int)) ∧
      (∀ k, ((sendAll State.empty sends).2.filter fun p => decide (p.1.key = k)).map Prod.snd =
        (List.range (sendsTo k sends)).map Int.ofNat) ∧
      ∀ p ∈ (sendAll State.empty sends).2,
        (sendAll State.empty sends).1.uncommitted.msgAt p.1.key p.2 = some p.1.msg := by
  obtain ⟨_, h2, h3, h4, h5, _⟩ := sendAll_inv sends hlen
  refine ⟨h2, fun i p hp => ?_, h3, h4⟩
  have hoff := h5 i p hp
  have hsend : sends[i]? = some p.1 := by
    have := congrArg (fun l => l[i]?) h2
    simpa [List.getElem?_map, hp] using this.symm
  have hlen1 : (sends.take i).length < 9223372036854775808 := by
    have hle : (sends.take i).length ≤ sends.length := by
      rw [List.length_take]
      exact Nat.min_le_right _ _
    omega
  obtain ⟨g1, _, _, _, _, _⟩ := sendAll_inv (sends.take i) hlen1
  obtain ⟨k1, k2, _, _, _⟩ := handleSend_ok (sendAll State.empty (sends.take i)).1 p.1
  have hget : (mapGet (sendAll State.empty (sends.take i)).1.uncommitted.offsets p.1.key).getD 0 =
      p.2 := by
    rw [g1, hoff]
    split_ifs with h0
    · simp [h0]
    · rfl
  refine ⟨by rw [k1, hget], k2, ?_, hoff⟩
  rw [List.take_succ, hsend, Option.toList_some, sendAll_append]

theorem send_offsets_consecutive_witness :
    [({ type := "send", key := "k1", msg := 10 } : SendBody),
        { type := "send", key := "k2", msg := 20 },
        { type := "send", key := "k1", msg := 30 }].length < 9223372036854775808 ∧
      ((sendAll State.empty
        [{ type := "send", key := "k1", msg := 10 }, { type := "send", key := "k2", msg := 20 },
          { type := "send", key := "k1", msg := 30 }]).2.filter
        fun p => decide (p.1.key = "k1")).map Prod.snd =
        (List.range (sendsTo "k1"
          [{ type := "send", key := "k1", msg := 10 }, { type := "send", key := "k2", msg := 20 },
            { type := "send", key := "k1", msg := 30 }])).map Int.ofNat :=
  ⟨by decide,
    (send_offsets_consecutive
      [{ type := "send", key := "k1", msg := 10 }, { type := "send", key := "k2", msg := 20 },
        { type := "send", key := "k1", msg := 30 }] (by decide)).2.2.1 "k1"⟩

/-! # Log node: poll -/

theorem pollOffsets_sorted (keyMsgs : List (Int × Int)) (req : Int) :
    (pollOffsets keyMsgs req).Sorted (· < ·) := by
  unfold pollOffsets
  refine (List.sorted_insertionSort (· ≤ ·) _).lt_of_le ?_
  exact (List.perm_insertionSort (· ≤ ·) _).nodup_iff.mpr ((mapKeys_nodup keyMsgs).filter _)

theorem mem_pollOffsets (keyMsgs : List (Int × Int)) (req o : Int) :
    o ∈ pollOffsets keyMsgs req ↔ req ≤ o ∧ ∃ m, mapGet keyMsgs o = some m := by
  unfold pollOffsets
  rw [List.mem_insertionSort, List.mem_filter]
  have h := mapGet_eq_none_iff keyMsgs o
  constructor
  · rintro ⟨hk, hge⟩
    refine ⟨by simpa using hge, ?_⟩
    cases hm : mapGet keyMsgs o with
    | none => exact absurd hk (h.mp hm)
    | some m => exact ⟨m, rfl⟩
  · rintro ⟨hge, m, hm⟩
    refine ⟨?_, by simpa using hge⟩
    by_contra hk
    rw [h.mpr hk] at hm
    exact Option.noConfusion hm

/-- The pairs that the loop of lines 145-149 appends for the offsets `os`. -/
theorem pollAppend_spec (keyMsgs : List (Int × Int)) (key : String) (os : List Int)
    (msgs : List (String × List (List Int))) (k : String) :
    mapGet (pollAppend keyMsgs key os msgs) k =
      if k = key ∧ os.filterMap (fun o => (mapGet keyMsgs o).map fun m => [o, m]) ≠ [] then
        some ((mapGet msgs key).getD [] ++
          os.filterMap fun o => (mapGet keyMsgs o).map fun m => [o, m])
      else mapGet msgs k := by
  induction os generalizing msgs with
  | nil => simp [pollAppend]
  | cons o rest ih =>
    have hstep : pollAppend keyMsgs key (o :: rest) msgs =
        pollAppend keyMsgs key rest
          (match mapGet keyMsgs o with
            | some msg => mapSet msgs key ((mapGet msgs key).getD [] ++ [[o, msg]])
            | none => msgs) := by
      simp [pollAppend]
    rw [hstep, ih]
    cases hm : mapGet keyMsgs o with
    | none => simp [hm]
    | some m =>
      by_cases hk : k = key
      · subst hk
        simp [hm, mapGet_mapSet_self]
      · simp [hm, hk, mapGet_mapSet_ne _ _ _ _ hk]

theorem filterMap_pollOffsets (keyMsgs : List (Int × Int)) (req : Int) :
    (pollOffsets keyMsgs req).filterMap (fun o => (mapGet keyMsgs o).map fun m => [o, m]) =
      (pollOffsets keyMsgs req).map fun o => [o, (mapGet keyMsgs o).getD 0] := by
  have h : ∀ os : List Int, (∀ o ∈ os, ∃ m, mapGet keyMsgs o = some m) →
      os.filterMap (fun o => (mapGet keyMsgs o).map fun m => [o, m]) =
        os.map fun o => [o, (mapGet keyMsgs o).getD 0] := by
    intro os
    induction os with
    | nil => intro _; rfl
    | cons o rest ih =>
      intro hall
      obtain ⟨m, hm⟩ := hall o (List.mem_cons_self _ _)
      simp [List.filterMap_cons, hm, ih fun x hx => hall x (List.mem_cons_of_mem _ hx)]
  exact h _ fun o ho => ((mem_pollOffsets keyMsgs req o).mp ho).2

theorem pollKey_spec (u : Logs) (offsets : List (String × Int))
    (msgs : List (String × List (List Int))) (key k : String) :
    mapGet (pollKey u offsets msgs key) k =
      if k = key ∧ pollResult u offsets key ≠ [] then
        some ((mapGet msgs key).getD [] ++ pollResult u offsets key)
      else mapGet msgs k := by
  unfold pollKey pollResult
  cases hm : mapGet u.msgs key with
  | none => simp
  | some keyMsgs =>
    simp only [pollAppend_spec, filterMap_pollOffsets]

theorem poll_fold_spec (u : Logs) (offsets : List (String × Int)) (keys : List String)
    (hn : keys.Nodup) (msgs : List (String × List (List Int)))
    (hfresh : ∀ k ∈ keys, mapGet msgs k = none) (k : String) :
    mapGet (keys.foldl (pollKey u offsets) msgs) k =
      if k ∈ keys then
        (if pollResult u offsets k ≠ [] then some (pollResult u offsets k) else none)
      else mapGet msgs k := by
  induction keys generalizing msgs with
  | nil => simp
  | cons key rest ih =>
    have hn2 := List.nodup_cons.mp hn
    rw [List.foldl_cons, ih hn2.2]
    · by_cases hk : k ∈ rest
      · simp [hk]
      · by_cases hkk : k = key
        · subst hkk
          simp [hk, pollKey_spec, hfresh k (List.mem_cons_self _ _)]
        · simp [hk, hkk, pollKey_spec]
    · intro k2 hk2
      have hne : k2 ≠ key := fun h => hn2.1 (h ▸ hk2)
      rw [pollKey_spec]
      simp [hne, hfresh k2 (List.mem_cons_of_mem _ hk2)]

/-- C12: a poll leaves the logs as they are and is answered `poll_ok`; a key
that was not requested is not in the reply; for a key requested from offset
`req`, the reply holds for it the pairs `[offset, msg]` of the offsets `os`,
which are strictly increasing and are exactly the offsets of the key's log that
are at least `req`, each with the message stored under it, and the key is
absent from the reply when there is no such offset. -/
theorem poll_returns_from_offset (st : State) (body : PollBody) :
    (handlePoll st (.ok body)).1 = st ∧
      ∃ reply, (handlePoll st (.ok body)).2 = .ok reply ∧ reply.type = "poll_ok" ∧
        ∀ key,
          (mapGet body.offsets key = none → mapGet reply.msgs key = none) ∧
          ∀ req, mapGet body.offsets key = some req →
            ∃ os : List Int, os.Sorted (· < ·) ∧
              (∀ o, o ∈ os ↔ req ≤ o ∧ ∃ m, st.uncommitted.msgAt key o = some m) ∧
              mapGet reply.msgs key =
                if os = [] then none
                else some (os.map fun o => [o, (st.uncommitted.msgAt key o).getD 0]) := by
  refine ⟨rfl, _, rfl, rfl, fun key => ?_⟩
  have hspec := poll_fold_spec st.uncommitted body.offsets (mapKeys body.offsets)
    (mapKeys_nodup _) [] (fun _ _ => rfl) key
  simp only [mapGet] at hspec
  constructor
  · intro hnone
    rw [hspec, if_neg ((mapGet_eq_none_iff _ _).mp hnone)]
  · intro req hreq
    have hin : key ∈ mapKeys body.offsets := by
      by_contra h
      rw [(mapGet_eq_none_iff _ _).mpr h] at hreq
      exact Option.noConfusion hreq
    rw [hspec, if_pos hin]
    cases hm : mapGet st.uncommitted.msgs key with
    | none =>
      refine ⟨[], List.sorted_nil, fun o => ?_, ?_⟩
      · simp [Logs.msgAt, hm]
      · simp [pollResult, hm]
    | some keyMsgs =>
      have hat : ∀ o, st.uncommitted.msgAt key o = mapGet keyMsgs o := fun o => by
        simp [Logs.msgAt, hm]
      refine ⟨pollOffsets keyMsgs req, pollOffsets_sorted keyMsgs req, fun o => ?_, ?_⟩
      · rw [mem_pollOffsets, hat]
      · simp only [pollResult, hm, hreq, Option.getD_some, hat]
        by_cases he : pollOffsets keyMsgs req = []
        · simp [he]
        · simp [he]

/-! # Log node: committed offsets -/

theorem mapGet_isSome_iff_mem_keys (m : List (Int × Int)) (o : Int) :
    o ∈ mapKeys m ↔ ∃ v, mapGet m o = some v := by
  have h := mapGet_eq_none_iff m o
  cases hm : mapGet m o with
  | none => simpa [hm] using h.mp hm
  | some v =>
    refine ⟨fun _ => ⟨v, rfl⟩, fun _ => ?_⟩
    by_contra hk
    rw [h.mpr hk] at hm
    exact Option.noConfusion hm

theorem commitOffset_spec (ukm : List (Int × Int)) (key : String) (req : Int) (c : Logs)
    (o : Int) :
    (commitOffset ukm key req c o).offsets = c.offsets ∧
      ∀ k off, (commitOffset ukm key req c o).msgAt k off =
        if k = key ∧ off = o ∧ o ≤ req then some ((mapGet ukm o).getD 0) else c.msgAt k off := by
  unfold commitOffset
  by_cases hgt : o > req
  · refine ⟨by simp [hgt], fun k off => ?_⟩
    have : ¬ o ≤ req := by omega
    simp [hgt, this]
  · have hle : o ≤ req := by omega
    have hmsgs : (mapGet (if (mapGet c.msgs key).isNone then mapSet c.msgs key [] else c.msgs)
        key).getD [] = (mapGet c.msgs key).getD [] := by
      cases h : mapGet c.msgs key <;> simp [mapGet_mapSet_self, h]
    refine ⟨by simp [hgt], fun k off => ?_⟩
    simp only [hgt, if_false, msgAt_eq, hmsgs, mapGet_mapSet, hle, and_true]
    by_cases hk : k = key
    · subst hk
      simp only [true_and, if_true, Option.getD_some, mapGet_mapSet]
    · simp only [hk, false_and, if_false]
      split_ifs with h2
      · rw [mapGet_mapSet_ne _ _ _ _ hk]
      · rfl

theorem commitOffsets_fold_spec (ukm : List (Int × Int)) (key : String) (req : Int)
    (os : List Int) (c : Logs) :
    (os.foldl (commitOffset ukm key req) c).offsets = c.offsets ∧
      ∀ k off, (os.foldl (commitOffset ukm key req) c).msgAt k off =
        if k = key ∧ off ∈ os ∧ off ≤ req then some ((mapGet ukm off).getD 0)
        else c.msgAt k off := by
  induction os generalizing c with
  | nil => simp
  | cons o rest ih =>
    obtain ⟨h1, h2⟩ := ih (commitOffset ukm key req c o)
    obtain ⟨g1, g2⟩ := commitOffset_spec ukm key req c o
    refine ⟨by rw [List.foldl_cons, h1, g1], fun k off => ?_⟩
    rw [List.foldl_cons, h2, g2]
    by_cases hk : k = key
    · by_cases hr : off ∈ rest
      · by_cases hle : off ≤ req
        · simp [hk, hr, hle]
        · have hno : ¬(off = o ∧ o ≤ req) := by
            rintro ⟨rfl, h⟩
            exact hle h
          simp [hk, hr, hle, hno]
      · by_cases ho : off = o
        · subst ho
          simp [hk, hr]
        · simp [hk, hr, ho]
    · simp [hk]

theorem commitKey_spec (u : Logs) (offsets : List (String × Int)) (c : Logs) (key : String) :
    (∀ k, mapGet (commitKey u offsets c key).offsets k =
        if k = key ∧ (mapGet u.msgs key).isSome then some ((mapGet offsets key).getD 0)
        else mapGet c.offsets k) ∧
      ∀ k off, (commitKey u offsets c key).msgAt k off =
        if k = key ∧ (u.msgAt key off).isSome ∧ off ≤ (mapGet offsets key).getD 0 then
          u.msgAt key off
        else c.msgAt k off := by
  unfold commitKey
  cases hm : mapGet u.msgs key with
  | none => simp [Logs.msgAt, hm]
  | some ukm =>
    obtain ⟨h1, h2⟩ := commitOffsets_fold_spec ukm key ((mapGet offsets key).getD 0)
      (mapKeys ukm) c
    refine ⟨fun k => ?_, fun k off => ?_⟩
    · simp only [mapGet_mapSet, h1, Option.isSome_some, and_true]
    · have hu : u.msgAt key off = mapGet ukm off := by simp [Logs.msgAt, hm]
      change ((mapKeys ukm).foldl (commitOffset ukm key ((mapGet offsets key).getD 0))
        c).msgAt k off = _
      rw [h2, hu]
      have hmem := mapGet_isSome_iff_mem_keys ukm off
      cases hv : mapGet ukm off with
      | none =>
        have : off ∉ mapKeys ukm := fun h => by
          obtain ⟨v, hv2⟩ := hmem.mp h
          rw [hv] at hv2
          exact Option.noConfusion hv2
        simp [this]
      | some v =>
        have : off ∈ mapKeys ukm := hmem.mpr ⟨v, hv⟩
        simp [this]

theorem commit_fold_spec (u : Logs) (offsets : List (String × Int)) (keys : List String)
    (c : Logs) :
    (∀ k, mapGet (keys.foldl (commitKey u offsets) c).offsets k =
        if k ∈ keys ∧ (mapGet u.msgs k).isSome then some ((mapGet offsets k).getD 0)
        else mapGet c.offsets k) ∧
      ∀ k off, (keys.foldl (commitKey u offsets) c).msgAt k off =
        if k ∈ keys ∧ (u.msgAt k off).isSome ∧ off ≤ (mapGet offsets k).getD 0 then
          u.msgAt k off
        else c.msgAt k off := by
  induction keys generalizing c with
  | nil => simp
  | cons key rest ih =>
    obtain ⟨h1, h2⟩ := ih (commitKey u offsets c key)
    obtain ⟨g1, g2⟩ := commitKey_spec u offsets c key
    refine ⟨fun k => ?_, fun k off => ?_⟩
    · rw [List.foldl_cons, h1, g1]
      by_cases hr : k ∈ rest
      · by_cases hs : (mapGet u.msgs k).isSome
        · simp [hr, hs]
        · by_cases hk : k = key
          · subst hk; simp [hr, hs]
          · simp [hr, hs, hk]
      · by_cases hk : k = key
        · subst hk; simp [hr]
        · simp [hr, hk]
    · rw [List.foldl_cons, h2, g2]
      by_cases hr : k ∈ rest
      · by_cases hs : (u.msgAt k off).isSome ∧ off ≤ (mapGet offsets k).getD 0
        · simp [hr, hs]
        · by_cases hk : k = key
          · subst hk; simp [hr, hs]
          · simp [hr, hs, hk]
      · by_cases hk : k = key
        · subst hk; simp [hr]
        · simp [hr, hk]

theorem list_fold_spec (c : Logs) (keys : List String) (acc : List (String × Int))
    (k : String) :
    mapGet (keys.foldl
        (fun offsets key =>
          match mapGet c.offsets key with
          | some offset => mapSet offsets key offset
          | none => offsets) acc) k =
      if k ∈ keys ∧ (mapGet c.offsets k).isSome then mapGet c.offsets k else mapGet acc k := by
  induction keys generalizing acc with
  | nil => simp
  | cons key rest ih =>
    rw [List.foldl_cons, ih]
    by_cases hr : k ∈ rest ∧ (mapGet c.offsets k).isSome
    · simp [hr]
    · rw [if_neg hr]
      by_cases hk : k = key
      · subst hk
        cases hv : mapGet c.offsets k with
        | none => simp
        | some v => simp [mapGet_mapSet_self]
      · cases hv : mapGet c.offsets key with
        | none =>
          have : ¬((k = key ∨ k ∈ rest) ∧ (mapGet c.offsets k).isSome) := by
            rintro ⟨h1 | h1, h2⟩
            · exact hk h1
            · exact hr ⟨h1, h2⟩
          simp [this]
        | some v =>
          have : ¬((k = key ∨ k ∈ rest) ∧ (mapGet c.offsets k).isSome) := by
            rintro ⟨h1 | h1, h2⟩
            · exact hk h1
            · exact hr ⟨h1, h2⟩
          simp [this, mapGet_mapSet_ne _ _ _ _ hk]

/-- C13 (as stated, at a counterexample): on the empty logs, after a
`commit_offsets` request with `k1 -> 5` the reply to `list_committed_offsets`
for `k1` has no entry for `k1`. -/
theorem commit_without_messages_not_listed :
    (handleListCommittedOffsets
        (handleCommitOffsets State.empty
          (.ok { type := "commit_offsets", offsets := [("k1", 5)] })).1
        (.ok { type := "list_committed_offsets", keys := ["k1"] })).2 =
      .ok { type := "list_committed_offsets_ok", offsets := [] } := by
  rfl

/-- C13 (amended): when the log holds an entry for key `k` (a send for `k` was
handled), after a `commit_offsets` request containing `k -> o` a
`list_committed_offsets` request naming `k` returns `o` for `k`; in every
state the reply of `list_committed_offsets` holds, for a requested key, the
committed offset if there is one and nothing otherwise, and nothing for a key
that was not requested; and a `commit_offsets` request leaves the committed
offset of a key without a log entry as it was. -/
theorem committed_offsets_round_trip (st : State) (commit : CommitOffsetsBody)
    (list : ListCommittedOffsetsBody) (k : String) (o : Int)
    (hk : mapGet commit.offsets k = some o) (hlog : (mapGet st.uncommitted.msgs k).isSome)
    (hreq : k ∈ list.keys) :
    (∃ reply, (handleListCommittedOffsets (handleCommitOffsets st (.ok commit)).1
        (.ok list)).2 = .ok reply ∧ reply.type = "list_committed_offsets_ok" ∧
        mapGet reply.offsets k = some o) ∧
      (∀ (st2 : State) (k2 : String),
        ∃ reply, (handleListCommittedOffsets st2 (.ok list)).2 = .ok reply ∧
          mapGet reply.offsets k2 =
            if k2 ∈ list.keys then mapGet st2.committed.offsets k2 else none) ∧
      ∀ (st2 : State) (k2 : String), mapGet st2.uncommitted.msgs k2 = none →
        mapGet (handleCommitOffsets st2 (.ok commit)).1.committed.offsets k2 =
          mapGet st2.committed.offsets k2 := by
  refine ⟨?_, ?_, ?_⟩
  · refine ⟨_, rfl, rfl, ?_⟩
    have h1 := (commit_fold_spec st.uncommitted commit.offsets (mapKeys commit.offsets)
      st.committed).1 k
    have hin : k ∈ mapKeys commit.offsets := by
      by_contra h
      rw [(mapGet_eq_none_iff _ _).mpr h] at hk
      exact Option.noConfusion hk
    rw [if_pos ⟨hin, hlog⟩, hk] at h1
    have h2 := list_fold_spec (handleCommitOffsets st (.ok commit)).1.committed list.keys [] k
    simp only [handleCommitOffsets] at h2
    simp only [handleListCommittedOffsets, handleCommitOffsets]
    rw [h2, h1]
    simp [hreq]
  · intro st2 k2
    refine ⟨_, rfl, ?_⟩
    have h2 := list_fold_spec st2.committed list.keys [] k2
    simp only [handleListCommittedOffsets]
    rw [h2]
    by_cases hin : k2 ∈ list.keys
    · cases hv : mapGet st2.committed.offsets k2 <;> simp [hin, mapGet]
    · simp [hin, mapGet]
  · intro st2 k2 hnone
    have h1 := (commit_fold_spec st2.uncommitted commit.offsets (mapKeys commit.offsets)
      st2.committed).1 k2
    simp only [handleCommitOffsets]
    rw [h1]
    simp [hnone]

theorem committed_offsets_round_trip_witness :
    mapGet [("k1", (1 : Int))] "k1" = some 1 ∧
      (∃ reply, (handleListCommittedOffsets
        (handleCommitOffsets
          (sendAll State.empty [{ type := "send", key := "k1", msg := 10 }]).1
          (.ok { type := "commit_offsets", offsets := [("k1", 1)] })).1
        (.ok { type := "list_committed_offsets", keys := ["k1", "k2"] })).2 = .ok reply ∧
        reply.type = "list_committed_offsets_ok" ∧ mapGet reply.offsets "k1" = some 1) :=
  ⟨rfl,
    (committed_offsets_round_trip
      (sendAll State.empty [{ type := "send", key := "k1", msg := 10 }]).1
      { type := "commit_offsets", offsets := [("k1", 1)] }
      { type := "list_committed_offsets", keys := ["k1", "k2"] } "k1" 1 rfl rfl
      (by decide)).1⟩

/-- C17: after a `commit_offsets` request that names `k -> o`, the request is
answered `commit_offsets_ok`, the uncommitted log is as before, the committed
log of `k` holds every message of the uncommitted log of `k` whose offset is at
most `o`, with its content, holds under an offset greater than `o` what it
held before, and the committed log and committed offset of a key that the
request does not name are as before. -/
theorem commit_up_to_offset (st : State) (body : CommitOffsetsBody) (k : String) (o : Int)
    (hk : mapGet body.offsets k = some o) :
    (handleCommitOffsets st (.ok body)).2 = .ok { type := "commit_offsets_ok" } ∧
      (handleCommitOffsets st (.ok body)).1.uncommitted = st.uncommitted ∧
      (∀ off m, st.uncommitted.msgAt k off = some m → off ≤ o →
        (handleCommitOffsets st (.ok body)).1.committed.msgAt k off = some m) ∧
      (∀ off, o < off →
        (handleCommitOffsets st (.ok body)).1.committed.msgAt k off =
          st.committed.msgAt k off) ∧
      ∀ k2, mapGet body.offsets k2 = none →
        (∀ off, (handleCommitOffsets st (.ok body)).1.committed.msgAt k2 off =
          st.committed.msgAt k2 off) ∧
        mapGet (handleCommitOffsets st (.ok body)).1.committed.offsets k2 =
          mapGet st.committed.offsets k2 := by
  obtain ⟨h1, h2⟩ := commit_fold_spec st.uncommitted body.offsets (mapKeys body.offsets)
    st.committed
  have hin : k ∈ mapKeys body.offsets := by
    by_contra h
    rw [(mapGet_eq_none_iff _ _).mpr h] at hk
    exact Option.noConfusion hk
  refine ⟨rfl, rfl, fun off m hm hle => ?_, fun off hlt => ?_, fun k2 hk2 => ⟨fun off => ?_, ?_⟩⟩
  · simp only [handleCommitOffsets]
    rw [h2, hk, if_pos ⟨hin, by simp [hm], by simpa using hle⟩, hm]
  · simp only [handleCommitOffsets]
    rw [h2, hk]
    have : ¬ off ≤ o := by omega
    simp [this]
  · simp only [handleCommitOffsets]
    rw [h2]
    simp [(mapGet_eq_none_iff _ _).mp hk2]
  · simp only [handleCommitOffsets]
    rw [h1]
    simp [(mapGet_eq_none_iff _ _).mp hk2]

theorem commit_up_to_offset_witness :
    mapGet [("k1", (0 : Int))] "k1" = some 0 ∧
      (handleCommitOffsets
        (sendAll State.empty
          [{ type := "send", key := "k1", msg := 10 }, { type := "send", key := "k1", msg := 30 },
            { type := "send", key := "k2", msg := 20 }]).1
        (.ok { type := "commit_offsets", offsets := [("k1", 0)] })).1.committed =
        { offsets := [("k1", 0)], msgs := [("k1", [(0, 10)])] } ∧
      ∀ off, (0 : Int) < off →
        (handleCommitOffsets
          (sendAll State.empty
            [{ type := "send", key := "k1", msg := 10 },
              { type := "send", key := "k1", msg := 30 },
              { type := "send", key := "k2", msg := 20 }]).1
          (.ok { type := "commit_offsets", offsets := [("k1", 0)] })).1.committed.msgAt "k1" off =
        (sendAll State.empty
          [{ type := "send", key := "k1", msg := 10 }, { type := "send", key := "k1", msg := 30 },
            { type := "send", key := "k2", msg := 20 }]).1.committed.msgAt "k1" off :=
  ⟨rfl, by decide,
    (commit_up_to_offset
      (sendAll State.empty
        [{ type := "send", key := "k1", msg := 10 }, { type := "send", key := "k1", msg := 30 },
          { type := "send", key := "k2", msg := 20 }]).1
      { type := "commit_offsets", offsets := [("k1", 0)] } "k1" 0 rfl).2.2.2.1⟩

end Kafka

/-! # Transaction store -/

namespace Txn
open Go

theorem performOp_encode (store : Store) (op : Op) :
    performOp store op.encode =
      some (match op with
        | .read _ _ => store
        | .write key val => mapSet store key val, expectedEntry store [] op) := by
  cases op with
  | read key tail => simp [Op.encode, performOp, expectedEntry, heldValue, lastWrite]
  | write key val => simp [Op.encode, performOp, expectedEntry]

theorem heldValue_cons (store : Store) (op : Op) (earlier : List Op) (key : Rat) :
    heldValue store (op :: earlier) key =
      heldValue (match op with
        | .read _ _ => store
        | .write k v => mapSet store k v) earlier key := by
  unfold heldValue
  cases hl : lastWrite earlier key with
  | some v => simp [lastWrite, hl]
  | none =>
    cases op with
    | read k t => simp [lastWrite, hl]
    | write k v =>
      by_cases hk : k = key
      · subst hk
        simp [lastWrite, hl, mapGet_mapSet_self]
      · simp [lastWrite, hl, hk, mapGet_mapSet_ne _ _ _ _ (Ne.symm hk)]

theorem expectedEntry_cons (store : Store) (op : Op) (earlier : List Op) (next : Op) :
    expectedEntry store (op :: earlier) next =
      expectedEntry (match op with
        | .read _ _ => store
        | .write k v => mapSet store k v) earlier next := by
  cases next with
  | read key tail => simp [expectedEntry, heldValue_cons]
  | write key val => rfl

theorem performLoop_spec (ops : List Op) (store : Store) (res : List (List Any)) :
    ∃ store1 out, performLoop store res (ops.map Op.encode) = some (store1, res ++ out) ∧
      out.length = ops.length ∧
      (∀ key, mapGet store1 key =
        match lastWrite ops key with
        | some v => some v
        | none => mapGet store key) ∧
      ∀ i, out[i]? = (ops[i]?).map fun op => expectedEntry store (ops.take i) op := by
  induction ops generalizing store res with
  | nil => exact ⟨store, [], by simp [performLoop], rfl, fun _ => by simp [lastWrite], by simp⟩
  | cons op rest ih =>
    obtain ⟨store1, out, h1, h2, h3, h4⟩ :=
      ih (match op with
          | .read _ _ => store
          | .write key val => mapSet store key val) (res ++ [expectedEntry store [] op])
    refine ⟨store1, expectedEntry store [] op :: out, ?_, by simp [h2], fun key => ?_,
      fun i => ?_⟩
    · simp only [List.map_cons, performLoop, performOp_encode]
      rw [h1]
      simp
    · rw [h3]
      cases hl : lastWrite rest key with
      | some v => simp [lastWrite, hl]
      | none =>
        cases op with
        | read k t => simp [lastWrite, hl]
        | write k v =>
          by_cases hk : k = key
          · subst hk
            simp [lastWrite, hl, mapGet_mapSet_self]
          · simp [lastWrite, hl, hk, mapGet_mapSet_ne _ _ _ _ (Ne.symm hk)]
    · cases i with
      | zero => simp
      | succ i =>
        simp only [List.getElem?_cons_succ, List.take_succ_cons, h4]
        cases rest[i]? with
        | none => rfl
        | some next => simp [expectedEntry_cons]

/-- C14: for every store and every list of well-formed operations,
`PerformTxn` returns (it does not panic); the result has one entry per
operation, in order; the entry of a read `["r", k, ...]` is `["r", k, v]` with
`v` the value held for `k` at that point (the last value written to `k` by an
earlier operation of the transaction, else the value of the store, 0 for a key
it does not hold); the entry of a write `["w", k, v]` is `["w", k, v]`; and the
final store maps every written key to its last written value and every other
key to what the initial store maps it to. -/
theorem performTxn_sequential (store : Store) (ops : List Op) :
    ∃ store1 res, PerformTxn store (ops.map Op.encode) = some (store1, res) ∧
      res.length = ops.length ∧
      (∀ i, res[i]? = (ops[i]?).map fun op => expectedEntry store (ops.take i) op) ∧
      (∀ (i : Nat) (key : Rat) (tail : List Any), ops[i]? = some (Op.read key tail) →
        res[i]? = some [Any.string "r", Any.float64 key,
          Any.float64 (heldValue store (ops.take i) key)]) ∧
      (∀ (i : Nat) (key val : Rat), ops[i]? = some (Op.write key val) →
        res[i]? = some [Any.string "w", Any.float64 key, Any.float64 val]) ∧
      ∀ key, mapGet store1 key =
        match lastWrite ops key with
        | some v => some v
        | none => mapGet store key := by
  obtain ⟨store1, out, h1, h2, h3, h4⟩ := performLoop_spec ops store []
  refine ⟨store1, out, by simpa [PerformTxn] using h1, h2, h4, ?_, ?_, h3⟩
  · intro i key tail hi
    rw [h4, hi]
    rfl
  · intro i key val hi
    rw [h4, hi]
    rfl

end Txn

/-! # Counter node -/

namespace Counter
open Go

theorem unmarshalAny_ne_int (j : Json) (i : Int) : unmarshalAny j ≠ .int i := by
  cases j <;> simp [unmarshalAny]

theorem mapGet_unmarshalFields (fields : List (String × Json)) (k : String) (a : Any)
    (h : mapGet (unmarshalFields fields) k = some a) : ∃ j, a = unmarshalAny j := by
  induction fields with
  | nil => simp [unmarshalFields, mapGet] at h
  | cons p rest ih =>
    obtain ⟨k1, v⟩ := p
    simp only [unmarshalFields] at h
    split_ifs at h with hs
    · exact ih h
    · simp only [mapGet] at h
      split_ifs at h with hk
      · exact ⟨v, (Option.some.inj h).symm⟩
      · exact ih h

/-- C15 (at the failing input and for every body): the `add` handler panics
on the body `{"type": "add", "delta": 1}`, and on every body that is a JSON
object whose numbers are within the range of `float64`, because
`json.Unmarshal` stores numbers as `float64` and never as `int`; on an object
with a number out of range it returns the decoding error; on no body does it
put a value on the channel or reply `add_ok`. -/
theorem add_handler_panics (fields : List (String × Json)) :
    handleAdd (.object [("type", .string "add"), ("delta", .number 1)]) = .panic ∧
      (inRangeFields fields = true → handleAdd (.object fields) = .panic) ∧
      (inRangeFields fields = false → ∃ e, handleAdd (.object fields) = .error e) ∧
      ∀ (body : Json) (sent : Int) (reply : List (String × Any)),
        handleAdd body ≠ .ok sent reply := by
  have hobj : ∀ fields, inRangeFields fields = true → handleAdd (.object fields) = .panic := by
    intro fields hr
    simp only [handleAdd, unmarshalMap, hr, if_true]
    cases hm : mapGet (unmarshalFields fields) "delta" with
    | none => rfl
    | some a =>
      obtain ⟨j, rfl⟩ := mapGet_unmarshalFields fields "delta" a hm
      cases j <;> simp [unmarshalAny]
  have herr : ∀ fields, inRangeFields fields = false →
      ∃ e, handleAdd (.object fields) = .error e := by
    intro fields hr
    refine ⟨"json: cannot unmarshal number into Go value of type float64", ?_⟩
    simp [handleAdd, unmarshalMap, hr]
  refine ⟨hobj _ ?_, hobj fields, herr fields, fun body sent reply => ?_⟩
  · have h1 : (1 : Rat) < float64Limit := by
      unfold float64Limit
      norm_num
    simp [inRangeFields, Json.inRange, h1]
  · cases body with
    | object fields =>
      cases hr : inRangeFields fields with
      | true => rw [hobj fields hr]; exact fun h => AddOutcome.noConfusion h
      | false =>
        obtain ⟨e, he⟩ := herr fields hr
        rw [he]
        exact fun h => AddOutcome.noConfusion h
    | null => simp [handleAdd, unmarshalMap, mapGet]
    | bool b => simp [handleAdd, unmarshalMap]
    | number x => simp [handleAdd, unmarshalMap]
    | string s => simp [handleAdd, unmarshalMap]
    | array xs => simp [handleAdd, unmarshalMap]

end Counter

/-! # Broadcast node: targets of a round -/

namespace Broadcast

/-- C16 (as stated, at a counterexample): a task on snapshot `["n1", "n2"]`
whose first round was acknowledged by `n1` has `n1` in its acknowledged list,
and its second round issues a request to `n1` again as well as to `n2`. -/
theorem round_resends_to_acknowledged :
    (run .perIteration (start (newTask ["n1", "n2"] { type := "broadcast", message := 5 }))
        [.wake, .reply "n1" (.ok { inReplyTo := 1, type := "broadcast_ok" })]
        ).task.successfulSentDestinations = ["n1"] ∧
      (run .perIteration (start (newTask ["n1", "n2"] { type := "broadcast", message := 5 }))
        [.wake, .reply "n1" (.ok { inReplyTo := 1, type := "broadcast_ok" }), .wake]).sent =
        (run .perIteration (start (newTask ["n1", "n2"] { type := "broadcast", message := 5 }))
          [.wake, .reply "n1" (.ok { inReplyTo := 1, type := "broadcast_ok" })]).sent ++
          [("n1", { type := "broadcast", message := 5 }),
            ("n2", { type := "broadcast", message := 5 })] := by
  refine ⟨by decide, by decide⟩

/-- C16 (amended): a round of a task that has not exited and whose loop
condition is true issues one deliver request with the task's body to every
neighbour of the snapshot, in order, whether or not the neighbour is in the
acknowledged list, registers a callback for each, and leaves the acknowledged
list as it is. -/
theorem round_targets_whole_snapshot (scope : LoopVarScope) (r : Running)
    (hrun : r.finished = false) (hcond : loopCondition r.task = true) :
    (step scope r .wake).sent = r.sent ++ r.task.destinations.map (fun d => (d, r.task.body)) ∧
      (step scope r .wake).outstanding = r.outstanding ++ r.task.destinations ∧
      (step scope r .wake).task = r.task ∧
      ∀ d ∈ r.task.destinations,
        (d, r.task.body) ∈ r.task.destinations.map (fun d => (d, r.task.body)) := by
  have hstep : step scope r .wake =
      { r with outstanding := r.outstanding ++ r.task.destinations
               sent := r.sent ++ round r.task } := by
    rw [step_wake]
    simp [hrun, hcond]
  rw [hstep]
  exact ⟨rfl, rfl, rfl, fun d hd => List.mem_map.mpr ⟨d, hd, rfl⟩⟩

theorem round_targets_whole_snapshot_witness :
    (step .perIteration
      { task := { destinations := ["n1", "n2"], body := { type := "broadcast", message := 5 },
                  successfulSentDestinations := ["n1"] },
        outstanding := ["n2"], sent := [], finished := false } .wake).sent =
      [] ++ (["n1", "n2"] : List NodeId).map
        (fun d => (d, ({ type := "broadcast", message := 5 } : BroadcastRequestBody))) :=
  (round_targets_whole_snapshot .perIteration
    { task := { destinations := ["n1", "n2"], body := { type := "broadcast", message := 5 },
                successfulSentDestinations := ["n1"] },
      outstanding := ["n2"], sent := [], finished := false } rfl (by decide)).1

/-- C10 (at the failing input): with the range variable shared by the
iterations of the send loop (Go before 1.22), a task on snapshot `["n1", "n2"]`
whose round has been sent reads `n2` in the callback of the request that went
to `n1`: the well-formed `broadcast_ok` of `n1` makes the callback return `nil`
and record `n2`; `n1` is not recorded, neither by a second round and a second
acknowledgment of `n1`; and when both neighbours have acknowledged the list is
`["n2"]` and the loop condition is still true. -/
theorem ack_recorded_for_last_neighbour :
    closureNode .perLoop (newTask ["n1", "n2"] { type := "broadcast", message := 5 }) "n1" =
        "n2" ∧
      rpcCallback
          (closureNode .perLoop (newTask ["n1", "n2"] { type := "broadcast", message := 5 }) "n1")
          (.ok { inReplyTo := 1, type := "broadcast_ok" }) [] = (.ok (), ["n2"]) ∧
      (run .perLoop (start (newTask ["n1", "n2"] { type := "broadcast", message := 5 }))
        [.wake, .reply "n1" (.ok { inReplyTo := 1, type := "broadcast_ok" })]) =
        { task := { destinations := ["n1", "n2"], body := { type := "broadcast", message := 5 },
                    successfulSentDestinations := ["n2"] },
          outstanding := ["n2"],
          sent := [("n1", { type := "broadcast", message := 5 }),
                   ("n2", { type := "broadcast", message := 5 })],
          finished := false } ∧
      (run .perLoop (start (newTask ["n1", "n2"] { type := "broadcast", message := 5 }))
        [.wake, .reply "n1" (.ok { inReplyTo := 1, type := "broadcast_ok" }), .wake,
          .reply "n1" (.ok { inReplyTo := 3, type := "broadcast_ok" })]
        ).task.successfulSentDestinations = ["n2"] ∧
      (run .perLoop (start (newTask ["n1", "n2"] { type := "broadcast", message := 5 }))
        [.wake, .reply "n1" (.ok { inReplyTo := 1, type := "broadcast_ok" }),
          .reply "n2" (.ok { inReplyTo := 2, type := "broadcast_ok" })]
        ).task.successfulSentDestinations = ["n2"] ∧
      loopCondition (run .perLoop
        (start (newTask ["n1", "n2"] { type := "broadcast", message := 5 }))
        [.wake, .reply "n1" (.ok { inReplyTo := 1, type := "broadcast_ok" }),
          .reply "n2" (.ok { inReplyTo := 2, type := "broadcast_ok" })]).task = true := by
  refine ⟨by decide, by simp [closureNode, newTask, rpcCallback], by decide, by decide,
    by decide, by decide⟩

end Broadcast
